import Mathlib

/-!
# MIDI drum trigger: peak detector and round-robin event scheduler

Shallow embedding of the main loop of `firmware/main.c` (lines 365-484) and of
the input selection of `adc` (lines 342-362).

* The global arrays `hit`, `note_on`, `new_hit`, `stage`, `vmax`, `midi_code`
  and `midiMsg` are total functions on `Nat` (only indices below
  `NUM_OF_CHANS`, resp. below 8, are ever used when `first_reported < 13`).
* `vmax` and the sample `val` are C `int`s; they are embedded as `Int`.  The
  samples come from a 10-bit converter, so no 16-bit wrap-around can occur and
  none is modelled.  `>>` on `int` is the arithmetic shift `Int.shiftRight`.
* `uchar` increments (`i1++`, `iii++`) are taken modulo 256; the store
  `hit[chn] = vmax[chn] >> 3` converts to `uchar` modulo 256 (`to_uchar`).
* The `while(1)` scan is embedded with fuel: `scanLoop n` runs at most `n`
  iterations and answers `none` when it has not left the loop by then.
* The converter is outside the program: the readings of a pass are a parameter
  `samples` of `detectAll`, and `adc` takes the conversion as a function of the
  selected input.
-/

namespace MidiDrum

/-- The macro `#define NUM_OF_CHANS (13)`. -/
def NUM_OF_CHANS : Nat := 13

/-- The global `int high_treshold = 10;` (never written by the program). -/
def high_treshold : Int := 10

/-- Array store `a[i] = v`. -/
def upd {α : Type} (a : Nat → α) (i : Nat) (v : α) : Nat → α :=
  fun j => if j = i then v else a j

/-- The global variables of `main.c` used by the main loop. -/
@[ext]
structure State where
  midiMsg : Nat → Nat
  midi_code : Nat → Nat
  hit : Nat → Nat
  note_on : Nat → Nat
  new_hit : Nat → Nat
  stage : Nat → Nat
  vmax : Nat → Int
  first_reported : Nat
  iii : Nat
  i1 : Nat

/-- Initialiser of `midi_code` (line 370). -/
def midi_code_table : List Nat := [38, 41, 36, 40, 37, 46, 45, 47, 48, 43, 39, 42, 44]

/-- The state after the static initialisers (lines 365-380). -/
def init : State where
  midiMsg := fun _ => 0
  midi_code := fun i => midi_code_table.getD i 0
  hit := fun _ => 0
  note_on := fun _ => 0
  new_hit := fun _ => 0
  stage := fun _ => 0
  vmax := fun _ => 0
  first_reported := 0
  iii := 0
  i1 := 0

/-- Conversion of an `int` to `uchar` on assignment. -/
def to_uchar (x : Int) : Nat := (x % 256).toNat

/-- Lines 420-423: the value stored in `hit[chn]` for the peak `vmax[chn]`:
`if((vmax[chn]>>3) > 127) hit[chn]=127; else hit[chn]=vmax[chn]>>3;`. -/
def velocity (peak : Int) : Nat :=
  if peak.shiftRight 3 > 127 then 127 else to_uchar (peak.shiftRight 3)

/-- Body of the `for (chn...)` loop (lines 400-427) for channel `chn`, where
`val` is the value returned by `adc(chn)`. -/
def detect (s : State) (chn : Nat) (val : Int) : State :=
  if s.stage chn = 1 then
    let s1 := if val < s.vmax chn then { s with vmax := upd s.vmax chn val } else s
    if s1.vmax chn < high_treshold ∧ val > s1.vmax chn then
      { s1 with stage := upd s1.stage chn 0 }
    else s1
  else
    let s1 := if val > s.vmax chn then { s with vmax := upd s.vmax chn val } else s
    if s1.vmax chn > high_treshold ∧ s1.vmax chn > val ∧ s1.new_hit chn = 0 ∧
        s1.vmax chn - val > (s1.vmax chn).shiftRight 4 then
      let s2 := { s1 with new_hit := upd s1.new_hit chn 1 }
      let s3 := { s2 with hit := upd s2.hit chn (velocity (s2.vmax chn)) }
      { s3 with stage := upd s3.stage chn 1 }
    else s1

/-- The `for (chn=0;chn<NUM_OF_CHANS;chn++)` loop (lines 396-428);
`samples chn` is the value `adc(chn)` returns in this pass. -/
def detectAll (s : State) (samples : Nat → Int) : State :=
  (List.range NUM_OF_CHANS).foldl (fun t chn => detect t chn (samples chn)) s

/-- The statement `midiMsg[iii++] = b;`. -/
def put (s : State) (b : Nat) : State :=
  { s with midiMsg := upd s.midiMsg s.iii b, iii := (s.iii + 1) % 256 }

/-- The statements `i1++; if(i1 >= NUM_OF_CHANS) i1=0;`. -/
def next_i1 (s : State) : State :=
  let i := (s.i1 + 1) % 256
  { s with i1 := if i ≥ NUM_OF_CHANS then 0 else i }

/-- Lines 473-475, the end of an iteration that did not `break` earlier:
`i1++; if(i1 >= NUM_OF_CHANS) i1=0; if (i1==first_reported) break;`. -/
def loopTail (s : State) : State × Bool :=
  let s1 := next_i1 s
  (s1, decide (s1.i1 = s1.first_reported))

/-- One iteration of the `while(1)` loop (lines 438-475).  The flag is `true`
when the iteration leaves the loop through a `break`. -/
def loopBody (s : State) : State × Bool :=
  if s.new_hit s.i1 ≠ 0 then
    let s1 :=
      if s.note_on s.i1 ≠ 0 then
        put (put (put (put s 0x08) 0x80) (s.midi_code s.i1)) 0x00
      else s
    let s2 := put (put (put (put s1 0x09) 0x90) (s1.midi_code s1.i1)) (s1.hit s1.i1)
    let s3 := { s2 with new_hit := upd s2.new_hit s2.i1 0 }
    let s4 := { s3 with note_on := upd s3.note_on s3.i1 30 }
    (next_i1 s4, true)
  else
    if s.note_on s.i1 ≠ 0 then
      let s1 := { s with note_on := upd s.note_on s.i1 (s.note_on s.i1 - 1) }
      if s1.note_on s1.i1 = 0 then
        (next_i1 (put (put (put (put s1 0x08) 0x80) (s1.midi_code s1.i1)) 0x00), true)
      else loopTail s1
    else loopTail s

/-- The `while(1)` loop of lines 437-476, run for at most `fuel` iterations. -/
def scanLoop : Nat → State → Option State
  | 0, _ => none
  | fuel + 1, s =>
    let r := loopBody s
    if r.2 then some r.1 else scanLoop fuel r.1

/-- The bytes handed to `usbSetInterrupt(midiMsg, iii)`. -/
def buffer (s : State) : List Nat := (List.range s.iii).map s.midiMsg

/-- The scan entry `iii=0; i1=first_reported;` (lines 435-436). -/
def scanEntry (s : State) : State := { s with iii := 0, i1 := s.first_reported }

/-- The block guarded by `usbInterruptIsReady()` (lines 435-480): the state it
leaves and the buffer submitted to the transport, if any. -/
def schedule (fuel : Nat) (s : State) : Option (State × Option (List Nat)) :=
  match scanLoop fuel (scanEntry s) with
  | none => none
  | some s1 =>
    let s2 := { s1 with first_reported := s1.i1 }
    some (s2, if s2.iii ≠ 0 then some (buffer s2) else none)

/-- One pass of the main event loop (lines 392-482): `samples` are the
converter readings of this pass, `ready` is the answer of
`usbInterruptIsReady()`. -/
def mainLoop (fuel : Nat) (s : State) (samples : Nat → Int) (ready : Bool) :
    Option (State × Option (List Nat)) :=
  let s1 := detectAll s samples
  if ready then schedule fuel s1 else some (s1, none)

/-- The main loop run over a list of passes, each given by its converter
readings and the readiness of the transport; the result is the final state and
the buffer submitted (or not) in each pass.  Each scan gets `NUM_OF_CHANS`
iterations, which is enough whenever `first_reported < NUM_OF_CHANS`. -/
def runLoop (s : State) :
    List ((Nat → Int) × Bool) → Option (State × List (Option (List Nat)))
  | [] => some (s, [])
  | p :: ps =>
    match mainLoop NUM_OF_CHANS s p.1 p.2 with
    | none => none
    | some (s1, out) =>
      match runLoop s1 ps with
      | none => none
      | some (s2, outs) => some (s2, out :: outs)

/-- The detector of channel `chn` fed a list of samples.  The flag paired with
a sample says that the scheduler consumed the pending hit (`new_hit[chn]=0`,
line 453) before that sample was read.  Besides the final state the run
reports, for every sample, the stage the sample was read in and whether the
sample raised a hit (`new_hit[chn]` went from 0 to non-zero). -/
def detectRun (chn : Nat) : State → List (Int × Bool) → State × List (Nat × Bool)
  | s, [] => (s, [])
  | s, p :: rest =>
    let s0 := if p.2 then { s with new_hit := upd s.new_hit chn 0 } else s
    let s1 := detect s0 chn p.1
    let r := detectRun chn s1 rest
    (r.1, (s0.stage chn, decide (s0.new_hit chn = 0 ∧ s1.new_hit chn ≠ 0)) :: r.2)

/-- The `k`-th channel in scan order when the scan starts at cursor `f`. -/
def cyc (f k : Nat) : Nat := (f + k) % NUM_OF_CHANS

/-- The scan passes over channel `c` without leaving the loop: no hit is
pending and the timer is not about to expire. -/
def passes (s : State) (c : Nat) : Prop := s.new_hit c = 0 ∧ s.note_on c ≠ 1

/-- The scan state after the first `k` channels from the cursor have been
passed over: their running timers are one lower and `i1` is `k` further on. -/
def skipped (s : State) (k : Nat) : State :=
  { s with
    note_on := fun x =>
      if x < NUM_OF_CHANS ∧ (x + NUM_OF_CHANS - s.first_reported) % NUM_OF_CHANS < k then
        s.note_on x - 1
      else s.note_on x,
    i1 := cyc s.first_reported k }

/-- Converter readings of a pass in which every input is at rest. -/
def silence : Nat → Int := fun _ => 0

/-- Converter readings of a pass in which only channel `c` reads `v`. -/
def strike (c : Nat) (v : Int) : Nat → Int := fun x => if x = c then v else 0

/-- What the scheduler keeps about the channels: cursor, timers and pending
hits of the 13 channels. -/
def view (s : State) : Nat × List Nat × List Nat :=
  (s.first_reported, (List.range NUM_OF_CHANS).map s.note_on,
    (List.range NUM_OF_CHANS).map s.new_hit)

/-- Number of passes of a run in which the transport is ready. -/
def readyCount (inputs : List ((Nat → Int) × Bool)) : Nat :=
  (inputs.filter (fun p => p.2)).length

/-- Cyclic distance from cursor `f` to channel `c`: the number of channels the
scan looks at before it reaches `c`. -/
def dist (f c : Nat) : Nat := (c + NUM_OF_CHANS - f) % NUM_OF_CHANS

/-- The buffer carries the note-on `{0x09, 0x90, note, vel}`, alone or after
the note-off of the same note. -/
def carriesNoteOn (buf : List Nat) (note vel : Nat) : Prop :=
  buf = [0x09, 0x90, note, vel] ∨ buf = [0x08, 0x80, note, 0x00, 0x09, 0x90, note, vel]

/-- The states the scheduler block sees (the states after the detector pass)
in the ready passes of a run, in order. -/
def readyStates : State → List ((Nat → Int) × Bool) → List State
  | _, [] => []
  | s, p :: ps =>
    (if p.2 then [detectAll s p.1] else []) ++
    match mainLoop NUM_OF_CHANS s p.1 p.2 with
    | none => []
    | some r => readyStates r.1 ps

instance passes_decidable (s : State) (c : Nat) : Decidable (passes s c) :=
  inferInstanceAs (Decidable (s.new_hit c = 0 ∧ s.note_on c ≠ 1))

/-- Number of channels of `S` among the channels the scan looks at from the
cursor `f` up to and including channel `c`. -/
def ahead (S : Finset Nat) (f c : Nat) : Nat :=
  Nat.count (fun j => cyc f j ∈ S) (dist f c + 1)

/-- The state right after the scheduler has sent the note-on of channel 2:
channel 2 peaks at 100 in the first pass and drops in the second, ready one. -/
def afterNoteOn2 : State :=
  ((mainLoop NUM_OF_CHANS (detectAll init (strike 2 100)) silence true).getD (init, none)).1

/-- The states the main loop can be in at the start of a pass: the initial
state and whatever a pass makes of such a state, for any converter readings
and any readiness of the transport. -/
inductive Reachable : State → Prop
  | start : Reachable init
  | pass (s s1 : State) (samples : Nat → Int) (ready : Bool) (out : Option (List Nat)) :
      Reachable s → mainLoop NUM_OF_CHANS s samples ready = some (s1, out) → Reachable s1

/-- The registers `adc` sets before it starts a conversion: `PORTB` drives the
select lines of the external multiplexer, `ADMUX` selects the input line of
the converter. -/
structure AdcPins where
  PORTB : Nat
  ADMUX : Nat
deriving DecidableEq

/-- Lines 344-355 of `adc`: the clamp of the channel and the selection of the
input.  `REFS1`, `REFS0` and `ADLAR` are the bit numbers `avr/io.h` gives for
the device; the registers are 8 bits wide. -/
def adc_select (REFS1 REFS0 ADLAR : Nat) (channel : Nat) : AdcPins :=
  let channel := if channel > 12 then 12 else channel
  let r : AdcPins :=
    if channel > 4 then { PORTB := (channel - 5) % 256, ADMUX := 0 }
    else { PORTB := 0x0, ADMUX := (channel + 1) % 256 }
  { r with ADMUX := (r.ADMUX ||| ((0 <<< REFS1) ||| (0 <<< REFS0) ||| (0 <<< ADLAR))) % 256 }

/-- The function `adc` (lines 342-362): `convert` is the value the converter
delivers in `ADC` for the selected input once the conversion is complete. -/
def adc (convert : AdcPins → Int) (REFS1 REFS0 ADLAR : Nat) (channel : Nat) : Int :=
  convert (adc_select REFS1 REFS0 ADLAR channel)


/-- The channels the scan examines: the value of `i1` at the start of each
iteration of the `while(1)` loop, for at most `fuel` iterations. -/
def scanChannels : Nat → State → List Nat
  | 0, _ => []
  | fuel + 1, s =>
    let r := loopBody s
    s.i1 :: (if r.2 then [] else scanChannels fuel r.1)

/-- The statements `midiMsg[iii++] = b;` for the bytes `bs` in turn, with the
positions of `midiMsg` they write. -/
def puts : State → List Nat → State × List Nat
  | s, [] => (s, [])
  | s, b :: bs => ((puts (put s b) bs).1, s.iii :: (puts (put s b) bs).2)

/-- One iteration of the `while(1)` loop (lines 438-475) as in `loopBody`,
with two logs: the subscripts it uses on `new_hit`, `note_on`, `midi_code` and
`hit`, and the positions of `midiMsg` it writes. -/
def loopBodyLog (s : State) : (State × Bool) × (List Nat × List Nat) :=
  if s.new_hit s.i1 ≠ 0 then
    let w1 :=
      if s.note_on s.i1 ≠ 0 then
        (puts s [0x08, 0x80, s.midi_code s.i1, 0x00], [s.i1])
      else ((s, []), [])
    let s1 := w1.1.1
    let w2 := puts s1 [0x09, 0x90, s1.midi_code s1.i1, s1.hit s1.i1]
    let s2 := w2.1
    let s3 := { s2 with new_hit := upd s2.new_hit s2.i1 0 }
    let s4 := { s3 with note_on := upd s3.note_on s3.i1 30 }
    ((next_i1 s4, true),
      ([s.i1, s.i1] ++ w1.2 ++ [s1.i1, s1.i1, s2.i1, s3.i1], w1.1.2 ++ w2.2))
  else
    if s.note_on s.i1 ≠ 0 then
      let s1 := { s with note_on := upd s.note_on s.i1 (s.note_on s.i1 - 1) }
      if s1.note_on s1.i1 = 0 then
        let w := puts s1 [0x08, 0x80, s1.midi_code s1.i1, 0x00]
        ((next_i1 w.1, true), ([s.i1, s.i1, s.i1, s.i1, s1.i1, s1.i1], w.2))
      else (loopTail s1, ([s.i1, s.i1, s.i1, s.i1, s1.i1], []))
    else (loopTail s, ([s.i1, s.i1], []))

/-- The `while(1)` loop as in `scanLoop`, with the logs of its iterations. -/
def scanLoopLog : Nat → State → Option (State × (List Nat × List Nat))
  | 0, _ => none
  | fuel + 1, s =>
    let r := loopBodyLog s
    if r.1.2 then some (r.1.1, r.2)
    else
      match scanLoopLog fuel r.1.1 with
      | none => none
      | some t => some (t.1, (r.2.1 ++ t.2.1, r.2.2 ++ t.2.2))

/-- What the detector of a channel shows after a sample: its stage, whether
the sample raised a hit, the stored velocity and the tracked peak. -/
structure DetectorEvent where
  stage : Nat
  raised : Bool
  velocity : Nat
  peak : Int

/-- The detector of channel `chn` fed a list of samples, as in `detectRun`
(the flag says that the scheduler consumed the pending hit before the sample
was read), reporting the state of the channel after every sample. -/
def detectTrace (chn : Nat) : State → List (Int × Bool) → List DetectorEvent
  | _, [] => []
  | s, p :: rest =>
    let s0 := if p.2 then { s with new_hit := upd s.new_hit chn 0 } else s
    let s1 := detect s0 chn p.1
    { stage := s1.stage chn, raised := decide (s0.new_hit chn = 0 ∧ s1.new_hit chn ≠ 0),
      velocity := s1.hit chn, peak := s1.vmax chn } :: detectTrace chn s1 rest

/-- The messages of a buffer: status byte and note of each 4-byte group. -/
def messages : List Nat → List (Nat × Nat)
  | _ :: st :: note :: _ :: rest => (st, note) :: messages rest
  | _ => []

/-- The messages for `note` in the buffers of a run, oldest first: `true` for
a note-on (status byte 0x90), `false` for a note-off. -/
def history (note : Nat) (outs : List (Option (List Nat))) : List Bool :=
  ((outs.flatMap (fun o => match o with
      | none => []
      | some buf => messages buf)).filter (fun m => decide (m.2 = note))).map
    (fun m => decide (m.1 = 0x90))

/-- The messages alternate between note-on and note-off, the first being a
note-on exactly when `first` is `true`. -/
def alternates : Bool → List Bool → Prop
  | _, [] => True
  | first, x :: xs => x = first ∧ alternates (!first) xs

/-- Whether the last message of a history is a note-on; `before` answers for
the empty history. -/
def lastOn : Bool → List Bool → Bool
  | before, [] => before
  | _, x :: xs => lastOn x xs

/-! ## Properties -/

theorem shiftRight_div (x : Int) (n : Nat) : x.shiftRight n = x / 2 ^ n := by
  have h := Int.shiftRight_eq_div_pow x n
  push_cast at h
  exact h

/-! ### The detector step -/

/-- The detector never touches the scheduler's variables or the note table. -/
theorem detect_frame (s : State) (chn : Nat) (val : Int) :
    (detect s chn val).note_on = s.note_on ∧
    (detect s chn val).first_reported = s.first_reported ∧
    (detect s chn val).midi_code = s.midi_code ∧
    (detect s chn val).midiMsg = s.midiMsg ∧
    (detect s chn val).iii = s.iii ∧
    (detect s chn val).i1 = s.i1 := by
  unfold detect
  dsimp only
  repeat' split
  all_goals simp

/-- The detector step of channel `chn` leaves every other channel alone. -/
theorem detect_other (s : State) (chn c : Nat) (val : Int) (hc : c ≠ chn) :
    (detect s chn val).new_hit c = s.new_hit c ∧
    (detect s chn val).hit c = s.hit c ∧
    (detect s chn val).stage c = s.stage c ∧
    (detect s chn val).vmax c = s.vmax c := by
  unfold detect
  dsimp only
  repeat' split
  all_goals simp [upd, hc]


/-- The SEARCHING branch of `detect` (lines 409-426). -/
theorem detect_stage0 (s : State) (chn : Nat) (val : Int) (hst : s.stage chn = 0) :
    (detect s chn val).vmax chn = max (s.vmax chn) val ∧
    ((detect s chn val).stage chn = 1 ↔
      (max (s.vmax chn) val > 10 ∧ max (s.vmax chn) val > val ∧ s.new_hit chn = 0 ∧
        max (s.vmax chn) val - val > (max (s.vmax chn) val).shiftRight 4)) ∧
    ((max (s.vmax chn) val > 10 ∧ max (s.vmax chn) val > val ∧ s.new_hit chn = 0 ∧
        max (s.vmax chn) val - val > (max (s.vmax chn) val).shiftRight 4) →
      (detect s chn val).new_hit chn = 1 ∧
      ((detect s chn val).hit chn : Int) = min 127 ((max (s.vmax chn) val).shiftRight 3) ∧
      (detect s chn val).stage chn = 1) ∧
    (¬ (max (s.vmax chn) val > 10 ∧ max (s.vmax chn) val > val ∧ s.new_hit chn = 0 ∧
        max (s.vmax chn) val - val > (max (s.vmax chn) val).shiftRight 4) →
      (detect s chn val).new_hit chn = s.new_hit chn ∧
      (detect s chn val).hit chn = s.hit chn ∧
      (detect s chn val).stage chn = s.stage chn) := by
  rcases lt_or_le (s.vmax chn) val with hv | hv
  · rw [max_eq_right hv.le]
    simp [detect, hst, hv, upd, high_treshold]
  · rw [max_eq_left hv]
    have hv' : ¬ s.vmax chn < val := not_lt.mpr hv
    by_cases hf : s.vmax chn > 10 ∧ s.vmax chn > val ∧ s.new_hit chn = 0 ∧
        s.vmax chn - val > (s.vmax chn).shiftRight 4
    · have h3 : 1 ≤ (s.vmax chn).shiftRight 3 := by
        rw [shiftRight_div]; norm_num; omega
      by_cases h127 : 127 < (s.vmax chn).shiftRight 3
      · simp [detect, hst, hv', upd, high_treshold, hf, velocity, h127,
          min_eq_left (le_of_lt h127)]
      · have hle : (s.vmax chn).shiftRight 3 ≤ 127 := not_lt.mp h127
        simp [detect, hst, hv', upd, high_treshold, hf, velocity, to_uchar, h127,
          min_eq_right hle]
        omega
    · simp [detect, hst, hv', upd, high_treshold, hf]

/-- C1: in SEARCHING (stage 0) the new peak is the maximum of the old peak and
the sample; with that new peak `p`, the step raises a hit (stage becomes
FALLING, `new_hit` becomes 1, `hit` becomes `min 127 (p >> 3)`) exactly when
`p > 10`, `p > val`, no hit is pending and `p - val > p >> 4`; otherwise
`new_hit`, `hit` and `stage` of the channel keep their values. -/
theorem detect_searching (s : State) (chn : Nat) (val : Int) (hst : s.stage chn = 0) :
    (detect s chn val).vmax chn = max (s.vmax chn) val ∧
    ((detect s chn val).stage chn = 1 ↔
      (max (s.vmax chn) val > 10 ∧ max (s.vmax chn) val > val ∧ s.new_hit chn = 0 ∧
        max (s.vmax chn) val - val > (max (s.vmax chn) val).shiftRight 4)) ∧
    ((max (s.vmax chn) val > 10 ∧ max (s.vmax chn) val > val ∧ s.new_hit chn = 0 ∧
        max (s.vmax chn) val - val > (max (s.vmax chn) val).shiftRight 4) →
      (detect s chn val).new_hit chn = 1 ∧
      ((detect s chn val).hit chn : Int) = min 127 ((max (s.vmax chn) val).shiftRight 3) ∧
      (detect s chn val).stage chn = 1) ∧
    (¬ (max (s.vmax chn) val > 10 ∧ max (s.vmax chn) val > val ∧ s.new_hit chn = 0 ∧
        max (s.vmax chn) val - val > (max (s.vmax chn) val).shiftRight 4) →
      (detect s chn val).new_hit chn = s.new_hit chn ∧
      (detect s chn val).hit chn = s.hit chn ∧
      (detect s chn val).stage chn = s.stage chn) :=
  detect_stage0 s chn val hst

/-- Witness for C1: channel 0 has peak 100 in SEARCHING and reads 0. -/
theorem detect_searching_witness :
    (detect init 0 100).stage 0 = 0 ∧
    (detect (detect init 0 100) 0 0).vmax 0 = 100 ∧
    (detect (detect init 0 100) 0 0).new_hit 0 = 1 ∧
    ((detect (detect init 0 100) 0 0).hit 0 : Int) = 12 :=
  ⟨by decide, (detect_searching (detect init 0 100) 0 0 (by decide)).1,
    ((detect_searching (detect init 0 100) 0 0 (by decide)).2.2.1 (by decide)).1,
    ((detect_searching (detect init 0 100) 0 0 (by decide)).2.2.1 (by decide)).2.1⟩

/-- The FALLING branch of `detect` (lines 403-404). -/
theorem detect_stage1 (s : State) (chn : Nat) (val : Int) (hst : s.stage chn = 1) :
    (detect s chn val).vmax chn = min (s.vmax chn) val ∧
    ((detect s chn val).stage chn = 0 ↔
      (min (s.vmax chn) val < 10 ∧ val > min (s.vmax chn) val)) ∧
    (¬ (min (s.vmax chn) val < 10 ∧ val > min (s.vmax chn) val) →
      (detect s chn val).stage chn = 1) ∧
    ((detect s chn val).stage chn = 0 → (detect s chn val).vmax chn = s.vmax chn) ∧
    (detect s chn val).new_hit = s.new_hit ∧
    (detect s chn val).hit = s.hit := by
  rcases lt_or_le val (s.vmax chn) with hv | hv
  · rw [min_eq_right hv.le]
    simp [detect, hst, hv, upd, high_treshold]
  · rw [min_eq_left hv]
    have hv' : ¬ val < s.vmax chn := not_lt.mpr hv
    by_cases hf : s.vmax chn < 10 ∧ val > s.vmax chn
    · simp [detect, hst, hv', upd, high_treshold, hf]
    · simp [detect, hst, hv', upd, high_treshold, hf]

/-- C8: in FALLING (stage 1) the new peak is the minimum of the old peak and
the sample; the stage returns to SEARCHING exactly when that new peak is below
10 and the sample is above it (otherwise it stays FALLING); on that transition
the peak keeps its old value; `new_hit` and `hit` are never changed. -/
theorem detect_falling (s : State) (chn : Nat) (val : Int) (hst : s.stage chn = 1) :
    (detect s chn val).vmax chn = min (s.vmax chn) val ∧
    ((detect s chn val).stage chn = 0 ↔
      (min (s.vmax chn) val < 10 ∧ val > min (s.vmax chn) val)) ∧
    (¬ (min (s.vmax chn) val < 10 ∧ val > min (s.vmax chn) val) →
      (detect s chn val).stage chn = 1) ∧
    ((detect s chn val).stage chn = 0 → (detect s chn val).vmax chn = s.vmax chn) ∧
    (detect s chn val).new_hit = s.new_hit ∧
    (detect s chn val).hit = s.hit :=
  detect_stage1 s chn val hst

/-- Witness for C8: channel 0 is FALLING with peak 100 after a hit. -/
theorem detect_falling_witness :
    (detect (detect init 0 100) 0 0).stage 0 = 1 ∧
    (detect (detect (detect init 0 100) 0 0) 0 5).vmax 0 = 5 ∧
    (detect (detect (detect init 0 100) 0 0) 0 5).new_hit
      = (detect (detect init 0 100) 0 0).new_hit :=
  ⟨by decide, (detect_falling (detect (detect init 0 100) 0 0) 0 5 (by decide)).1,
    (detect_falling (detect (detect init 0 100) 0 0) 0 5 (by decide)).2.2.2.2.1⟩

/-- On non-negative peaks the stored velocity is `min 127 (peak >> 3)`. -/
theorem velocity_eq_min (p : Int) (hp : 0 ≤ p) :
    (velocity p : Int) = min 127 (p.shiftRight 3) := by
  unfold velocity to_uchar
  rw [shiftRight_div]
  norm_num
  split_ifs with h <;> omega

/-- C10: the velocity stored at detection is `min 127 (peak >> 3)`; on
(non-negative) peaks it is monotonically non-decreasing, it is 127 whenever
`peak >> 3 >= 127`, and peaks 1016 and 80 give 127 and 10. -/
theorem velocity_scaling :
    (∀ (s : State) (chn : Nat) (val : Int), s.stage chn = 0 →
      (detect s chn val).stage chn = 1 →
      (detect s chn val).hit chn = velocity ((detect s chn val).vmax chn) ∧
      ((detect s chn val).hit chn : Int)
        = min 127 (((detect s chn val).vmax chn).shiftRight 3)) ∧
    (∀ p q : Int, 0 ≤ p → p ≤ q → velocity p ≤ velocity q) ∧
    (∀ p : Int, p.shiftRight 3 ≥ 127 → velocity p = 127) ∧
    velocity 1016 = 127 ∧ velocity 80 = 10 := by
  refine ⟨?_, ?_, ?_, by decide, by decide⟩
  · intro s chn val hst hfire
    have hv : (detect s chn val).hit chn = velocity ((detect s chn val).vmax chn) ∧
        10 < (detect s chn val).vmax chn := by
      unfold detect at hfire ⊢
      simp only [hst, high_treshold] at hfire ⊢
      split_ifs at hfire ⊢ with h1 h2 h2 <;> simp_all [upd]
    refine ⟨hv.1, ?_⟩
    rw [hv.1]
    exact velocity_eq_min _ (by omega)
  · intro p q hp hpq
    have h1 := velocity_eq_min p hp
    have h2 := velocity_eq_min q (le_trans hp hpq)
    rw [shiftRight_div] at h1 h2
    norm_num at h1 h2
    omega
  · intro p hp
    unfold velocity to_uchar
    rw [shiftRight_div] at hp ⊢
    norm_num at hp ⊢
    omega

/-- Witness for C10: the hit of peak 100 on channel 0, and peaks 80 and 1016. -/
theorem velocity_scaling_witness :
    (detect init 0 100).stage 0 = 0 ∧
    (detect (detect init 0 100) 0 0).hit 0 = velocity 100 ∧
    velocity 80 ≤ velocity 1016 ∧ velocity 1016 = 127 :=
  ⟨by decide,
    (velocity_scaling.1 (detect init 0 100) 0 0 (by decide) (by decide)).1,
    velocity_scaling.2.1 80 1016 (by decide) (by decide),
    velocity_scaling.2.2.1 1016 (by decide)⟩

/-! ### One hit per pulse -/

theorem detectRun_append (chn : Nat) (a b : List (Int × Bool)) (s : State) :
    detectRun chn s (a ++ b)
      = ((detectRun chn (detectRun chn s a).1 b).1,
         (detectRun chn s a).2 ++ (detectRun chn (detectRun chn s a).1 b).2) := by
  induction a generalizing s with
  | nil => simp [detectRun]
  | cons p a ih => simp [detectRun, ih]

/-- A SEARCHING step on a sample that is not below a peak above the
threshold raises no hit. -/
theorem detect_rise_step (s : State) (chn : Nat) (x : Int)
    (hst : s.stage chn = 0) (hnh : s.new_hit chn = 0)
    (hinv : s.vmax chn ≤ 10 ∨ s.vmax chn ≤ x) :
    (detect s chn x).stage chn = 0 ∧ (detect s chn x).new_hit chn = 0 ∧
    (detect s chn x).vmax chn = max (s.vmax chn) x := by
  obtain ⟨h1, _, _, h4⟩ := detect_stage0 s chn x hst
  have hno : ¬ (max (s.vmax chn) x > 10 ∧ max (s.vmax chn) x > x ∧ s.new_hit chn = 0 ∧
      max (s.vmax chn) x - x > (max (s.vmax chn) x).shiftRight 4) := by
    rintro ⟨ha, hb, _, _⟩
    rcases hinv with h | h
    · rcases le_total (s.vmax chn) x with h' | h'
      · rw [max_eq_right h'] at hb; omega
      · rw [max_eq_left h'] at ha; omega
    · rw [max_eq_right h] at hb; omega
  obtain ⟨h5, _, h7⟩ := h4 hno
  exact ⟨by rw [h7, hst], by rw [h5, hnh], h1⟩

/-- A non-decreasing run of samples ending in `p > 10` raises no hit and leaves
the channel SEARCHING with peak `p`. -/
theorem detectRun_rise (chn : Nat) (p : Int) (hp : 10 < p) (l : List Int) (s : State)
    (hst : s.stage chn = 0) (hnh : s.new_hit chn = 0)
    (hinv : s.vmax chn ≤ 10 ∨ ∀ x ∈ l ++ [p], s.vmax chn ≤ x)
    (hs : List.Pairwise (fun a b => a ≤ b) (l ++ [p])) :
    (detectRun chn s ((l ++ [p]).map (fun x => (x, false)))).2
        = List.replicate (l.length + 1) (0, false) ∧
    (detectRun chn s ((l ++ [p]).map (fun x => (x, false)))).1.stage chn = 0 ∧
    (detectRun chn s ((l ++ [p]).map (fun x => (x, false)))).1.new_hit chn = 0 ∧
    (detectRun chn s ((l ++ [p]).map (fun x => (x, false)))).1.vmax chn = p := by
  induction l generalizing s with
  | nil =>
    have hinv' : s.vmax chn ≤ 10 ∨ s.vmax chn ≤ p := by
      rcases hinv with h | h
      · exact Or.inl h
      · exact Or.inr (h p (by simp))
    obtain ⟨h1, h2, h3⟩ := detect_rise_step s chn p hst hnh hinv'
    have hmax : max (s.vmax chn) p = p := by
      rcases hinv' with h | h <;> apply max_eq_right <;> omega
    simp [detectRun, hst, hnh, h1, h2, h3, hmax]
  | cons x l ih =>
    have hinv' : s.vmax chn ≤ 10 ∨ s.vmax chn ≤ x := by
      rcases hinv with h | h
      · exact Or.inl h
      · exact Or.inr (h x (by simp))
    obtain ⟨h1, h2, h3⟩ := detect_rise_step s chn x hst hnh hinv'
    have hs' : List.Pairwise (fun a b => a ≤ b) (l ++ [p]) := by
      simp only [List.cons_append, List.pairwise_cons] at hs
      exact hs.2
    have hx : ∀ y ∈ l ++ [p], x ≤ y := by
      simp only [List.cons_append, List.pairwise_cons] at hs
      exact hs.1
    have hinv2 : (detect s chn x).vmax chn ≤ 10 ∨
        ∀ y ∈ l ++ [p], (detect s chn x).vmax chn ≤ y := by
      rw [h3]
      rcases le_total (s.vmax chn) x with h' | h'
      · rw [max_eq_right h']; exact Or.inr hx
      · rw [max_eq_left h']
        rcases hinv' with h | h
        · exact Or.inl h
        · have : s.vmax chn = x := le_antisymm h h'
          rw [this]; exact Or.inr hx
    obtain ⟨k1, k2, k3, k4⟩ := ih (detect s chn x) h1 h2 hinv2 hs'
    simp only [List.cons_append, List.map_cons, detectRun, Bool.false_eq_true, if_false,
      List.append_eq]
    refine ⟨?_, k2, k3, k4⟩
    rw [k1]
    simp [hst, hnh, h2, List.replicate_succ]

/-- While the channel is FALLING no sample raises a hit, whether or not the
pending hit has been consumed. -/
theorem detectRun_falling_quiet (chn : Nat) (l : List (Int × Bool)) (s : State) :
    ∀ e ∈ (detectRun chn s l).2, e.1 = 1 → e.2 = false := by
  induction l generalizing s with
  | nil => simp [detectRun]
  | cons q l ih =>
    intro e he
    simp only [detectRun, List.mem_cons] at he
    rcases he with he | he
    · intro h1
      subst he
      simp only at h1
      have hf := (detect_stage1 _ chn q.1 h1).2.2.2.2.1
      simp only [hf]
      simp
    · exact ih _ e he

/-- The exit test of line 404, taken after the update of line 403, in terms of
the peak `m` held before the sample `x` was read. -/
theorem falling_exit_iff (m x : Int) :
    (min m x < 10 ∧ x > min m x) ↔ (m < 10 ∧ x > m) := by
  rcases le_total m x with h | h
  · rw [min_eq_left h]
  · rw [min_eq_right h]
    constructor
    · rintro ⟨_, h2⟩
      exact absurd h2 (lt_irrefl x)
    · rintro ⟨_, h2⟩
      exact absurd h2 (not_lt.mpr h)

/-- A FALLING step whose sample does not rise above a peak below the threshold
keeps the channel FALLING, leaves `new_hit` alone and tracks the minimum. -/
theorem detect_falling_stay (s : State) (chn : Nat) (x : Int) (hst : s.stage chn = 1)
    (h : ¬ (s.vmax chn < 10 ∧ x > s.vmax chn)) :
    (detect s chn x).stage chn = 1 ∧ (detect s chn x).new_hit = s.new_hit ∧
    (detect s chn x).vmax chn = min (s.vmax chn) x := by
  obtain ⟨h1, _, h3, _, h5, _⟩ := detect_stage1 s chn x hst
  exact ⟨h3 (fun hc => h ((falling_exit_iff _ _).mp hc)), h5, h1⟩

/-- A FALLING step whose sample rises above a peak below the threshold returns
the channel to SEARCHING with that peak and leaves `new_hit` alone. -/
theorem detect_falling_exit (s : State) (chn : Nat) (x : Int) (hst : s.stage chn = 1)
    (h : s.vmax chn < 10 ∧ x > s.vmax chn) :
    (detect s chn x).stage chn = 0 ∧ (detect s chn x).new_hit = s.new_hit ∧
    (detect s chn x).vmax chn = s.vmax chn := by
  obtain ⟨_, h2, _, h4, h5, _⟩ := detect_stage1 s chn x hst
  have h0 := h2.mpr ((falling_exit_iff _ _).mpr h)
  exact ⟨h0, h5, h4 h0⟩

/-- Consuming the pending hit (line 453) touches neither stage nor peak. -/
theorem consume_frame (s : State) (chn : Nat) (b : Bool) :
    (if b then { s with new_hit := upd s.new_hit chn 0 } else s).stage = s.stage ∧
    (if b then { s with new_hit := upd s.new_hit chn 0 } else s).vmax = s.vmax := by
  cases b <;> simp

/-- A FALLING channel fed samples none of which rises above a lowest value so
far that is below the threshold: every sample is read in FALLING, none raises a
hit, and the peak ends at the lowest value seen. -/
theorem detectRun_falling_stay (chn : Nat) (l : List (Int × Bool)) (s : State)
    (hst : s.stage chn = 1)
    (hstay : ∀ (k : Nat) (hk : k < l.length),
      ¬ (List.foldl min (s.vmax chn) ((l.take k).map Prod.fst) < 10 ∧
         (l.get ⟨k, hk⟩).1 > List.foldl min (s.vmax chn) ((l.take k).map Prod.fst))) :
    (detectRun chn s l).2 = List.replicate l.length (1, false) ∧
    (detectRun chn s l).1.stage chn = 1 ∧
    (detectRun chn s l).1.vmax chn = List.foldl min (s.vmax chn) (l.map Prod.fst) := by
  induction l generalizing s with
  | nil => simp [detectRun, hst]
  | cons q l ih =>
    have h0 := hstay 0 (by simp)
    simp only [List.take_zero, List.map_nil, List.foldl_nil, List.get_eq_getElem,
      List.getElem_cons_zero] at h0
    obtain ⟨c1, c2⟩ := consume_frame s chn q.2
    have e1 : (if q.2 then { s with new_hit := upd s.new_hit chn 0 } else s).stage chn = 1 := by
      rw [c1]; exact hst
    have e2 : (if q.2 then { s with new_hit := upd s.new_hit chn 0 } else s).vmax chn
        = s.vmax chn := by rw [c2]
    obtain ⟨d1, d2, d3⟩ := detect_falling_stay _ chn q.1 e1 (by rw [e2]; exact h0)
    obtain ⟨k1, k2, k3⟩ := ih _ d1 (by
      intro k hk
      have hk1 := hstay (k + 1) (by simp only [List.length_cons]; omega)
      rw [d3, e2]
      simpa using hk1)
    simp only [detectRun]
    refine ⟨?_, k2, ?_⟩
    · rw [k1, e1, d2]
      simp [List.replicate_succ]
    · rw [k3, d3, e2]
      simp

/-- A FALLING channel whose peak is below the threshold reads a sample above
it: the sample raises no hit and the channel is SEARCHING again. -/
theorem detectRun_falling_exit (chn : Nat) (x : Int × Bool) (s : State)
    (hst : s.stage chn = 1) (h : s.vmax chn < 10 ∧ x.1 > s.vmax chn) :
    (detectRun chn s [x]).2 = [(1, false)] ∧
    (detectRun chn s [x]).1.stage chn = 0 ∧
    (detectRun chn s [x]).1.vmax chn = s.vmax chn := by
  obtain ⟨c1, c2⟩ := consume_frame s chn x.2
  have e1 : (if x.2 then { s with new_hit := upd s.new_hit chn 0 } else s).stage chn = 1 := by
    rw [c1]; exact hst
  have e2 : (if x.2 then { s with new_hit := upd s.new_hit chn 0 } else s).vmax chn
      = s.vmax chn := by rw [c2]
  obtain ⟨d1, d2, d3⟩ := detect_falling_exit _ chn x.1 e1 (by rw [e2]; exact h)
  simp only [detectRun]
  refine ⟨?_, d1, by rw [d3, e2]⟩
  rw [e1, d2]
  simp

/-- C7: from SEARCHING with no pending hit and peak 0, a non-decreasing run of
samples up to a maximum `p > 10` raises no hit; the following sample `v` with
`p - v > p >> 4` raises exactly one hit, of velocity `min 127 (p >> 3)`, and
puts the channel in FALLING.  The samples `later` that follow, as long as none
of them rises above a lowest value so far (counted from `p`) that is below 10,
are all read in FALLING and raise no hit, whether or not the scheduler consumes
the pending hit in between, and the tracked peak is the lowest value seen; the
first sample that does rise above a lowest value below 10 raises no hit either
and returns the channel to SEARCHING with that peak.  On any tail at all, no
sample read in FALLING raises a hit. -/
theorem one_hit_per_pulse (s : State) (chn : Nat) (rise : List Int) (p v : Int)
    (later : List (Int × Bool))
    (hst : s.stage chn = 0) (hnh : s.new_hit chn = 0) (hpk : s.vmax chn = 0)
    (hs : List.Pairwise (fun a b => a ≤ b) (rise ++ [p]))
    (hp : p > 10) (hdrop : p - v > p.shiftRight 4)
    (hstay : ∀ (k : Nat) (hk : k < later.length),
      ¬ (List.foldl min p ((later.take k).map Prod.fst) < 10 ∧
         (later.get ⟨k, hk⟩).1 > List.foldl min p ((later.take k).map Prod.fst))) :
    (detectRun chn s ((rise ++ [p]).map (fun x => (x, false)))).2
        = List.replicate (rise.length + 1) (0, false) ∧
    (detectRun chn s ((rise ++ [p]).map (fun x => (x, false)) ++ [(v, false)])).2
        = List.replicate (rise.length + 1) (0, false) ++ [(0, true)] ∧
    ((detectRun chn s ((rise ++ [p]).map (fun x => (x, false)) ++ [(v, false)])).1.hit chn : Int)
        = min 127 (p.shiftRight 3) ∧
    (detectRun chn s ((rise ++ [p]).map (fun x => (x, false)) ++ [(v, false)])).1.stage chn = 1 ∧
    (detectRun chn s ((rise ++ [p]).map (fun x => (x, false)) ++ [(v, false)])).1.vmax chn = p ∧
    (detectRun chn s ((rise ++ [p]).map (fun x => (x, false)) ++ [(v, false)] ++ later)).2
        = List.replicate (rise.length + 1) (0, false) ++ [(0, true)]
          ++ List.replicate later.length (1, false) ∧
    (detectRun chn s
        ((rise ++ [p]).map (fun x => (x, false)) ++ [(v, false)] ++ later)).1.stage chn = 1 ∧
    (detectRun chn s
        ((rise ++ [p]).map (fun x => (x, false)) ++ [(v, false)] ++ later)).1.vmax chn
        = List.foldl min p (later.map Prod.fst) ∧
    (∀ x : Int × Bool,
      List.foldl min p (later.map Prod.fst) < 10 →
      x.1 > List.foldl min p (later.map Prod.fst) →
      (detectRun chn s
          ((rise ++ [p]).map (fun x => (x, false)) ++ [(v, false)] ++ later ++ [x])).2
          = List.replicate (rise.length + 1) (0, false) ++ [(0, true)]
            ++ List.replicate later.length (1, false) ++ [(1, false)] ∧
      (detectRun chn s
          ((rise ++ [p]).map (fun x => (x, false)) ++ [(v, false)] ++ later ++ [x])).1.stage chn
          = 0 ∧
      (detectRun chn s
          ((rise ++ [p]).map (fun x => (x, false)) ++ [(v, false)] ++ later ++ [x])).1.vmax chn
          = List.foldl min p (later.map Prod.fst)) ∧
    (∀ tail : List (Int × Bool),
      (detectRun chn s ((rise ++ [p]).map (fun x => (x, false)) ++ [(v, false)] ++ tail)).2
          = List.replicate (rise.length + 1) (0, false) ++ [(0, true)]
            ++ (detectRun chn
                  (detectRun chn s
                    ((rise ++ [p]).map (fun x => (x, false)) ++ [(v, false)])).1 tail).2 ∧
      ∀ e ∈ (detectRun chn
              (detectRun chn s ((rise ++ [p]).map (fun x => (x, false)) ++ [(v, false)])).1
              tail).2, e.1 = 1 → e.2 = false) := by
  obtain ⟨r1, r2, r3, r4⟩ := detectRun_rise chn p hp rise s hst hnh
    (Or.inl (by rw [hpk]; decide)) hs
  obtain ⟨d1, _, d3, _⟩ := detect_stage0 _ chn v r2
  have hsh : 0 ≤ p.shiftRight 4 := by
    rw [shiftRight_div]
    have : (2 : Int) ^ 4 = 16 := by norm_num
    rw [this]
    omega
  have hpv : v ≤ p := by omega
  rw [r4, max_eq_left hpv] at d3 d1
  obtain ⟨d5, d6, d7⟩ := d3 ⟨hp, by omega, r3, hdrop⟩
  have hdropRun : (detectRun chn s ((rise ++ [p]).map (fun x => (x, false)) ++ [(v, false)])).2
        = List.replicate (rise.length + 1) (0, false) ++ [(0, true)] := by
    rw [detectRun_append, r1]
    simp only [detectRun, Bool.false_eq_true, if_false, r2, r3, d5]
    simp
  have hstate : (detectRun chn s ((rise ++ [p]).map (fun x => (x, false)) ++ [(v, false)])).1
      = detect (detectRun chn s ((rise ++ [p]).map (fun x => (x, false)))).1 chn v := by
    rw [detectRun_append]
    simp only [detectRun, Bool.false_eq_true, if_false]
  have hstg : (detectRun chn s
      ((rise ++ [p]).map (fun x => (x, false)) ++ [(v, false)])).1.stage chn = 1 := by
    rw [hstate]; exact d7
  have hvm : (detectRun chn s
      ((rise ++ [p]).map (fun x => (x, false)) ++ [(v, false)])).1.vmax chn = p := by
    rw [hstate]; exact d1
  obtain ⟨f1, f2, f3⟩ := detectRun_falling_stay chn later _ hstg (by rw [hvm]; exact hstay)
  rw [hvm] at f3
  have hlater : (detectRun chn s
      ((rise ++ [p]).map (fun x => (x, false)) ++ [(v, false)] ++ later)).1
      = (detectRun chn
          (detectRun chn s ((rise ++ [p]).map (fun x => (x, false)) ++ [(v, false)])).1
          later).1 := by
    rw [detectRun_append]
  refine ⟨r1, hdropRun, ?_, hstg, hvm, ?_, ?_, ?_, ?_, ?_⟩
  · rw [hstate]; exact d6
  · rw [detectRun_append, hdropRun, f1]
  · rw [hlater]; exact f2
  · rw [hlater]; exact f3
  · intro x hx1 hx2
    obtain ⟨g1, g2, g3⟩ := detectRun_falling_exit chn x _ f2 (by rw [f3]; exact ⟨hx1, hx2⟩)
    rw [← hlater] at g1 g2 g3
    rw [detectRun_append chn
      ((rise ++ [p]).map (fun x => (x, false)) ++ [(v, false)] ++ later) [x] s]
    refine ⟨?_, g2, by rw [g3, hlater, f3]⟩
    simp only
    rw [g1, detectRun_append, hdropRun, f1]
  · intro tail
    refine ⟨?_, detectRun_falling_quiet chn tail _⟩
    rw [detectRun_append, hdropRun]

/-- Witness for C7: channel 0 rises 20, 50, 100 and drops to 0; the ringing
60, 70 and the decay to 5 (the hit being consumed before the 70) keep it FALLING
without a hit, and the sample 6 above the floor 5 returns it to SEARCHING. -/
theorem one_hit_per_pulse_witness :
    init.stage 0 = 0 ∧
    (detectRun 0 init ((([20, 50] : List Int) ++ [100]).map (fun x => (x, false))
        ++ [(0, false)] ++ [(60, false), (70, true), (5, false)])).2
      = [(0, false), (0, false), (0, false), (0, true), (1, false), (1, false), (1, false)] ∧
    (detectRun 0 init ((([20, 50] : List Int) ++ [100]).map (fun x => (x, false))
        ++ [(0, false)] ++ [(60, false), (70, true), (5, false)])).1.stage 0 = 1 ∧
    (detectRun 0 init ((([20, 50] : List Int) ++ [100]).map (fun x => (x, false))
        ++ [(0, false)] ++ [(60, false), (70, true), (5, false)] ++ [(6, false)])).1.stage 0
      = 0 :=
  ⟨by decide,
    (one_hit_per_pulse init 0 [20, 50] 100 0 [(60, false), (70, true), (5, false)]
      (by decide) (by decide) (by decide) (by decide) (by decide) (by decide)
      (by decide)).2.2.2.2.2.1,
    (one_hit_per_pulse init 0 [20, 50] 100 0 [(60, false), (70, true), (5, false)]
      (by decide) (by decide) (by decide) (by decide) (by decide) (by decide)
      (by decide)).2.2.2.2.2.2.1,
    ((one_hit_per_pulse init 0 [20, 50] 100 0 [(60, false), (70, true), (5, false)]
      (by decide) (by decide) (by decide) (by decide) (by decide) (by decide)
      (by decide)).2.2.2.2.2.2.2.2.1 (6, false) (by decide) (by decide)).2.1⟩

/-! ### The scheduler scan -/

theorem loopBody_pass (t : State) (hi : t.i1 < 13) (hp : passes t t.i1) :
    loopBody t = ({ t with note_on := upd t.note_on t.i1 (t.note_on t.i1 - 1),
                           i1 := (t.i1 + 1) % 13 },
                  decide ((t.i1 + 1) % 13 = t.first_reported)) := by
  obtain ⟨h1, h2⟩ := hp
  have hnext : (if (t.i1 + 1) % 256 ≥ NUM_OF_CHANS then 0 else (t.i1 + 1) % 256)
      = (t.i1 + 1) % 13 := by
    unfold NUM_OF_CHANS
    split_ifs <;> omega
  unfold loopBody
  simp only [h1, ne_eq, not_true_eq_false, if_false]
  by_cases h0 : t.note_on t.i1 = 0
  · simp only [h0, not_true_eq_false, if_false, loopTail, next_i1, hnext]
    congr 1
    apply State.ext <;> simp
    funext x
    simp only [upd]
    split_ifs with hx
    · rw [hx, h0]
    · rfl
  · have h3 : t.note_on t.i1 - 1 ≠ 0 := by omega
    simp [h0, upd, h3, loopTail, next_i1, hnext]

theorem skipped_fields (s : State) (k : Nat) :
    (skipped s k).new_hit = s.new_hit ∧ (skipped s k).hit = s.hit ∧
    (skipped s k).midi_code = s.midi_code ∧ (skipped s k).stage = s.stage ∧
    (skipped s k).vmax = s.vmax ∧ (skipped s k).first_reported = s.first_reported ∧
    (skipped s k).iii = s.iii ∧ (skipped s k).midiMsg = s.midiMsg ∧
    (skipped s k).i1 = cyc s.first_reported k :=
  ⟨rfl, rfl, rfl, rfl, rfl, rfl, rfl, rfl, rfl⟩

theorem cyc_lt (f k : Nat) : cyc f k < 13 := by
  unfold cyc NUM_OF_CHANS; omega

theorem skipped_note_on_at (s : State) (k : Nat) (hf : s.first_reported < 13) (hk : k < 13) :
    (skipped s k).note_on (cyc s.first_reported k) = s.note_on (cyc s.first_reported k) := by
  unfold skipped cyc NUM_OF_CHANS
  simp only
  rw [if_neg]
  omega

/-- One more channel passed over. -/
theorem skipped_succ (s : State) (hf : s.first_reported < 13) (k : Nat) (hk : k < 13) :
    ({ skipped s k with
        note_on := upd (skipped s k).note_on (skipped s k).i1
          ((skipped s k).note_on (skipped s k).i1 - 1),
        i1 := ((skipped s k).i1 + 1) % 13 } : State) = skipped s (k + 1) := by
  apply State.ext <;> simp [skipped, cyc, NUM_OF_CHANS]
  · funext x
    simp only [upd]
    by_cases hx : x = (s.first_reported + k) % 13
    · have h1 : ¬ ((s.first_reported + k) % 13 + 13 - s.first_reported) % 13 < k := by omega
      have h2 : ((s.first_reported + k) % 13 < 13 ∧
          ((s.first_reported + k) % 13 + 13 - s.first_reported) % 13 < k + 1) := by omega
      rw [hx]
      simp [h1, h2]
    · have h3 : (x < 13 ∧ (x + 13 - s.first_reported) % 13 < k + 1) ↔
          (x < 13 ∧ (x + 13 - s.first_reported) % 13 < k) := by omega
      simp only [hx, if_false, h3]
  · omega

theorem skipped_passes (s : State) (hf : s.first_reported < 13) (k : Nat) (hk : k < 13)
    (hp : passes s (cyc s.first_reported k)) : passes (skipped s k) (skipped s k).i1 := by
  unfold passes
  rw [(skipped_fields s k).2.2.2.2.2.2.2.2, (skipped_fields s k).1,
    skipped_note_on_at s k hf hk]
  exact hp

/-- Passing over `k < 13` channels costs `k` iterations of the scan. -/
theorem scanLoop_skip (s : State) (hf : s.first_reported < 13) (hi : s.i1 = s.first_reported)
    (k : Nat) (hk : k < 13) (hp : ∀ j < k, passes s (cyc s.first_reported j)) (n : Nat) :
    scanLoop (n + k) s = scanLoop n (skipped s k) := by
  induction k generalizing n with
  | zero =>
    congr 1
    apply State.ext <;> simp [skipped, cyc, NUM_OF_CHANS, hi]
    omega
  | succ k ih =>
    have hk' : k < 13 := by omega
    rw [show n + (k + 1) = (n + 1) + k by omega, ih hk' (fun j hj => hp j (by omega))]
    have hpass := skipped_passes s hf k hk' (hp k (by omega))
    rw [scanLoop, loopBody_pass _ (cyc_lt _ _) hpass]
    have hne : ¬ ((skipped s k).i1 + 1) % 13 = (skipped s k).first_reported := by
      simp only [skipped, cyc, NUM_OF_CHANS]
      omega
    simp only [hne, decide_False, Bool.false_eq_true, if_false]
    rw [skipped_succ s hf k hk']

/-- When all 13 channels are passed over, the scan ends at the cursor it
started from, after 13 iterations. -/
theorem scanLoop_idle (s : State) (hf : s.first_reported < 13) (hi : s.i1 = s.first_reported)
    (hp : ∀ j < 13, passes s (cyc s.first_reported j)) (n : Nat) :
    scanLoop (n + 13) s = some (skipped s 13) := by
  rw [show n + 13 = (n + 1) + 12 by omega,
    scanLoop_skip s hf hi 12 (by omega) (fun j hj => hp j (by omega))]
  have hpass := skipped_passes s hf 12 (by omega) (hp 12 (by omega))
  rw [scanLoop, loopBody_pass _ (cyc_lt _ _) hpass]
  have he : ((skipped s 12).i1 + 1) % 13 = (skipped s 12).first_reported := by
    simp only [skipped, cyc, NUM_OF_CHANS]
    omega
  simp only [he, decide_True, if_true]
  rw [← skipped_succ s hf 12 (by omega), he]

/-- The iteration that finds a pending hit (lines 438-457). -/
theorem loopBody_hit (t : State) (hi : t.i1 < 13) (hh : t.new_hit t.i1 ≠ 0) (h0 : t.iii = 0) :
    (loopBody t).2 = true ∧
    (loopBody t).1.new_hit = upd t.new_hit t.i1 0 ∧
    (loopBody t).1.note_on = upd t.note_on t.i1 30 ∧
    (loopBody t).1.i1 = (t.i1 + 1) % 13 ∧
    (loopBody t).1.iii ≠ 0 ∧
    buffer (loopBody t).1 =
      (if t.note_on t.i1 ≠ 0 then
        [0x08, 0x80, t.midi_code t.i1, 0x00, 0x09, 0x90, t.midi_code t.i1, t.hit t.i1]
       else [0x09, 0x90, t.midi_code t.i1, t.hit t.i1]) ∧
    (loopBody t).1.hit = t.hit ∧ (loopBody t).1.midi_code = t.midi_code ∧
    (loopBody t).1.stage = t.stage ∧ (loopBody t).1.vmax = t.vmax ∧
    (loopBody t).1.first_reported = t.first_reported := by
  have hnext : (if (t.i1 + 1) % 256 ≥ NUM_OF_CHANS then 0 else (t.i1 + 1) % 256)
      = (t.i1 + 1) % 13 := by
    unfold NUM_OF_CHANS
    split_ifs <;> omega
  unfold loopBody
  by_cases hn : t.note_on t.i1 = 0
  · simp [hh, hn, put, next_i1, hnext, h0, buffer, upd, List.range_succ]
  · simp [hh, hn, put, next_i1, hnext, h0, buffer, upd, List.range_succ]

/-- The iteration in which a timer expires (lines 460-470). -/
theorem loopBody_off (t : State) (hi : t.i1 < 13) (hh : t.new_hit t.i1 = 0)
    (h1 : t.note_on t.i1 = 1) (h0 : t.iii = 0) :
    (loopBody t).2 = true ∧
    (loopBody t).1.new_hit = t.new_hit ∧
    (loopBody t).1.note_on = upd t.note_on t.i1 0 ∧
    (loopBody t).1.i1 = (t.i1 + 1) % 13 ∧
    (loopBody t).1.iii ≠ 0 ∧
    buffer (loopBody t).1 = [0x08, 0x80, t.midi_code t.i1, 0x00] ∧
    (loopBody t).1.hit = t.hit ∧ (loopBody t).1.midi_code = t.midi_code ∧
    (loopBody t).1.stage = t.stage ∧ (loopBody t).1.vmax = t.vmax ∧
    (loopBody t).1.first_reported = t.first_reported := by
  have hnext : (if (t.i1 + 1) % 256 ≥ NUM_OF_CHANS then 0 else (t.i1 + 1) % 256)
      = (t.i1 + 1) % 13 := by
    unfold NUM_OF_CHANS
    split_ifs <;> omega
  unfold loopBody
  simp [hh, h1, put, next_i1, hnext, h0, buffer, upd, List.range_succ]

/-- The scan stops in the iteration after `d` channels have been passed over. -/
theorem scanLoop_stop (s : State) (hf : s.first_reported < 13)
    (d : Nat) (hd : d < 13) (hp : ∀ j < d, passes s (cyc s.first_reported j))
    (hstop : (loopBody (skipped (scanEntry s) d)).2 = true)
    (fuel : Nat) (hfuel : 13 ≤ fuel) :
    scanLoop fuel (scanEntry s) = some (loopBody (skipped (scanEntry s) d)).1 := by
  rw [show fuel = (fuel - d - 1 + 1) + d by omega,
    scanLoop_skip (scanEntry s) hf rfl d hd hp, scanLoop]
  simp only [hstop, if_true]

/-- The scheduler block when the first channel the scan does not pass over has
a pending hit. -/
theorem schedule_hit (s : State) (hf : s.first_reported < 13)
    (d : Nat) (hd : d < 13) (hp : ∀ j < d, passes s (cyc s.first_reported j))
    (hh : s.new_hit (cyc s.first_reported d) ≠ 0) (fuel : Nat) (hfuel : 13 ≤ fuel) :
    ∃ s1, schedule fuel s = some (s1, some
        (if s.note_on (cyc s.first_reported d) ≠ 0 then
          [0x08, 0x80, s.midi_code (cyc s.first_reported d), 0x00,
           0x09, 0x90, s.midi_code (cyc s.first_reported d), s.hit (cyc s.first_reported d)]
         else [0x09, 0x90, s.midi_code (cyc s.first_reported d),
               s.hit (cyc s.first_reported d)])) ∧
      s1.first_reported = (cyc s.first_reported d + 1) % 13 ∧
      s1.new_hit = upd s.new_hit (cyc s.first_reported d) 0 ∧
      s1.note_on = upd (skipped s d).note_on (cyc s.first_reported d) 30 ∧
      s1.hit = s.hit ∧ s1.midi_code = s.midi_code ∧ s1.stage = s.stage ∧ s1.vmax = s.vmax := by
  have hi : (skipped (scanEntry s) d).i1 < 13 := cyc_lt _ _
  obtain ⟨h1, h2, h3, h4, h5, h6, h7, h8, h9, h10, _⟩ :=
    loopBody_hit (skipped (scanEntry s) d) hi hh rfl
  have hscan := scanLoop_stop s hf d hd hp h1 fuel hfuel
  have hn : (skipped (scanEntry s) d).note_on (skipped (scanEntry s) d).i1
      = s.note_on (cyc s.first_reported d) := skipped_note_on_at s d hf hd
  refine ⟨{ (loopBody (skipped (scanEntry s) d)).1 with
      first_reported := (loopBody (skipped (scanEntry s) d)).1.i1 }, ?_, h4, h2, h3, h7, h8, h9, h10⟩
  unfold schedule
  rw [hscan]
  simp only [h5, ne_eq, not_false_eq_true, if_true]
  rw [show buffer { (loopBody (skipped (scanEntry s) d)).1 with
        first_reported := (loopBody (skipped (scanEntry s) d)).1.i1 }
      = buffer (loopBody (skipped (scanEntry s) d)).1 from rfl, h6, hn]
  rfl

/-- The scheduler block when the first channel the scan does not pass over has
no pending hit and a timer that expires. -/
theorem schedule_off (s : State) (hf : s.first_reported < 13)
    (d : Nat) (hd : d < 13) (hp : ∀ j < d, passes s (cyc s.first_reported j))
    (hh : s.new_hit (cyc s.first_reported d) = 0)
    (h1 : s.note_on (cyc s.first_reported d) = 1) (fuel : Nat) (hfuel : 13 ≤ fuel) :
    ∃ s1, schedule fuel s = some (s1, some
        [0x08, 0x80, s.midi_code (cyc s.first_reported d), 0x00]) ∧
      s1.first_reported = (cyc s.first_reported d + 1) % 13 ∧
      s1.new_hit = s.new_hit ∧
      s1.note_on = upd (skipped s d).note_on (cyc s.first_reported d) 0 ∧
      s1.hit = s.hit ∧ s1.midi_code = s.midi_code ∧ s1.stage = s.stage ∧ s1.vmax = s.vmax := by
  have hi : (skipped (scanEntry s) d).i1 < 13 := cyc_lt _ _
  have hn : (skipped (scanEntry s) d).note_on (skipped (scanEntry s) d).i1 = 1 :=
    (skipped_note_on_at s d hf hd).trans h1
  obtain ⟨k1, h2, h3, h4, h5, h6, h7, h8, h9, h10, _⟩ :=
    loopBody_off (skipped (scanEntry s) d) hi hh hn rfl
  have hscan := scanLoop_stop s hf d hd hp k1 fuel hfuel
  refine ⟨{ (loopBody (skipped (scanEntry s) d)).1 with
      first_reported := (loopBody (skipped (scanEntry s) d)).1.i1 }, ?_, h4, h2, h3, h7, h8, h9, h10⟩
  unfold schedule
  rw [hscan]
  simp only [h5, ne_eq, not_false_eq_true, if_true]
  rw [show buffer { (loopBody (skipped (scanEntry s) d)).1 with
        first_reported := (loopBody (skipped (scanEntry s) d)).1.i1 }
      = buffer (loopBody (skipped (scanEntry s) d)).1 from rfl, h6]
  rfl

/-- The scheduler block when the scan passes over all 13 channels: nothing is
sent, the cursor stays, every running timer is one lower. -/
theorem schedule_idle (s : State) (hf : s.first_reported < 13)
    (hp : ∀ j < 13, passes s (cyc s.first_reported j)) (fuel : Nat) (hfuel : 13 ≤ fuel) :
    ∃ s1, schedule fuel s = some (s1, none) ∧
      s1.first_reported = s.first_reported ∧
      s1.new_hit = s.new_hit ∧
      s1.note_on = (skipped s 13).note_on ∧
      s1.hit = s.hit ∧ s1.midi_code = s.midi_code ∧ s1.stage = s.stage ∧ s1.vmax = s.vmax := by
  have hscan : scanLoop fuel (scanEntry s) = some (skipped (scanEntry s) 13) := by
    rw [show fuel = (fuel - 13) + 13 by omega]
    exact scanLoop_idle (scanEntry s) hf rfl hp _
  refine ⟨{ skipped (scanEntry s) 13 with first_reported := (skipped (scanEntry s) 13).i1 },
    ?_, ?_, rfl, rfl, rfl, rfl, rfl, rfl⟩
  · unfold schedule
    rw [hscan]
    rfl
  · show cyc s.first_reported 13 = s.first_reported
    unfold cyc NUM_OF_CHANS
    omega

/-- Either the scan passes over all 13 channels, or there is a first channel
in scan order that it does not pass over. -/
theorem first_stop (s : State) (n : Nat) :
    (∀ j < n, passes s (cyc s.first_reported j)) ∨
    ∃ d < n, (∀ j < d, passes s (cyc s.first_reported j)) ∧
      ¬ passes s (cyc s.first_reported d) := by
  induction n with
  | zero => exact Or.inl (fun j hj => absurd hj (Nat.not_lt_zero j))
  | succ n ih =>
    rcases ih with h | ⟨d, hd, h1, h2⟩
    · by_cases hn : passes s (cyc s.first_reported n)
      · left
        intro j hj
        rcases Nat.lt_succ_iff_lt_or_eq.mp hj with h' | h'
        · exact h j h'
        · rw [h']; exact hn
      · exact Or.inr ⟨n, Nat.lt_succ_self n, h, hn⟩
    · exact Or.inr ⟨d, Nat.lt_succ_of_lt hd, h1, h2⟩

theorem not_passes (s : State) (c : Nat) (h : ¬ passes s c) :
    s.new_hit c ≠ 0 ∨ (s.new_hit c = 0 ∧ s.note_on c = 1) := by
  unfold passes at h
  by_cases h0 : s.new_hit c = 0
  · right
    refine ⟨h0, ?_⟩
    by_contra h1
    exact h ⟨h0, h1⟩
  · exact Or.inl h0

/-- The detector pass preserves whatever every single detector step preserves. -/
theorem detectAll_induct (P : State → Prop)
    (hP : ∀ (s : State) (chn : Nat) (val : Int), P s → P (detect s chn val))
    (s : State) (samples : Nat → Int) (h : P s) : P (detectAll s samples) := by
  unfold detectAll
  generalize List.range NUM_OF_CHANS = l
  induction l generalizing s with
  | nil => exact h
  | cons c l ih => exact ih _ (hP s c (samples c) h)

/-- The detector pass never touches the scheduler's variables or the note
table. -/
theorem detectAll_frame (s : State) (samples : Nat → Int) :
    (detectAll s samples).note_on = s.note_on ∧
    (detectAll s samples).first_reported = s.first_reported ∧
    (detectAll s samples).midi_code = s.midi_code := by
  apply detectAll_induct
    (fun t => t.note_on = s.note_on ∧ t.first_reported = s.first_reported ∧
      t.midi_code = s.midi_code)
  · intro t chn val ⟨h1, h2, h3⟩
    obtain ⟨k1, k2, k3, _⟩ := detect_frame t chn val
    exact ⟨k1.trans h1, k2.trans h2, k3.trans h3⟩
  · exact ⟨rfl, rfl, rfl⟩

/-- A pending hit stays pending, with its velocity, through a detector step. -/
theorem detect_pending (s : State) (chn c : Nat) (val : Int) (h : s.new_hit c ≠ 0) :
    (detect s chn val).new_hit c ≠ 0 ∧ (detect s chn val).hit c = s.hit c := by
  by_cases hc : c = chn
  · subst hc
    unfold detect
    dsimp only
    repeat' split
    all_goals simp_all [upd]
  · obtain ⟨h1, h2, _, _⟩ := detect_other s chn c val hc
    exact ⟨by rw [h1]; exact h, h2⟩

/-- A pending hit stays pending, with its velocity, through a detector pass. -/
theorem detectAll_pending (s : State) (samples : Nat → Int) (c : Nat) (h : s.new_hit c ≠ 0) :
    (detectAll s samples).new_hit c ≠ 0 ∧ (detectAll s samples).hit c = s.hit c := by
  apply detectAll_induct (fun t => t.new_hit c ≠ 0 ∧ t.hit c = s.hit c)
  · intro t chn val ⟨h1, h2⟩
    obtain ⟨k1, k2⟩ := detect_pending t chn c val h1
    exact ⟨k1, k2.trans h2⟩
  · exact ⟨h, rfl⟩

theorem skipped_note_on_cyc (s : State) (hf : s.first_reported < 13) (k j : Nat)
    (hj : j < 13) :
    (skipped s k).note_on (cyc s.first_reported j)
      = if j < k then s.note_on (cyc s.first_reported j) - 1
        else s.note_on (cyc s.first_reported j) := by
  have h1 : cyc s.first_reported j < 13 := cyc_lt _ _
  have h2 : (cyc s.first_reported j + 13 - s.first_reported) % 13 = j := by
    unfold cyc NUM_OF_CHANS; omega
  simp only [skipped, NUM_OF_CHANS, h1, h2, true_and]

/-- Running the detector pass and then the scheduler block. -/
theorem mainLoop_ready (fuel : Nat) (s : State) (samples : Nat → Int) :
    mainLoop fuel s samples true = schedule fuel (detectAll s samples) := by
  simp [mainLoop]

/-! ### Servicing a channel -/

/-- C2: on a ready pass in which the scan reaches channel `c` (the channels
before it in scan order are passed over) and finds its hit pending, the buffer
is the note-on of `c` alone when the timer of `c` was 0, and the note-off of `c`
followed by its note-on when the timer was running; afterwards no hit is
pending for `c`, its timer is 30 and the cursor is `(c + 1) mod 13`. -/
theorem service_pending_hit (s : State) (samples : Nat → Int) (d fuel : Nat)
    (hf : s.first_reported < 13) (hd : d < 13) (hfuel : 13 ≤ fuel)
    (hp : ∀ j < d, passes (detectAll s samples) (cyc s.first_reported j))
    (hh : (detectAll s samples).new_hit (cyc s.first_reported d) ≠ 0) :
    ∃ s1 buf, mainLoop fuel s samples true = some (s1, some buf) ∧
      (s.note_on (cyc s.first_reported d) = 0 →
        buf = [0x09, 0x90, s.midi_code (cyc s.first_reported d),
               (detectAll s samples).hit (cyc s.first_reported d)] ∧ buf.length = 4) ∧
      (s.note_on (cyc s.first_reported d) > 0 →
        buf = [0x08, 0x80, s.midi_code (cyc s.first_reported d), 0x00,
               0x09, 0x90, s.midi_code (cyc s.first_reported d),
               (detectAll s samples).hit (cyc s.first_reported d)] ∧ buf.length = 8) ∧
      s1.new_hit (cyc s.first_reported d) = 0 ∧
      s1.note_on (cyc s.first_reported d) = 30 ∧
      s1.first_reported = (cyc s.first_reported d + 1) % 13 := by
  obtain ⟨e1, e2, e3⟩ := detectAll_frame s samples
  rw [← e2] at hp hh
  obtain ⟨s1, h1, h2, h3, h4, _⟩ :=
    schedule_hit (detectAll s samples) (by rw [e2]; exact hf) d hd hp hh fuel hfuel
  rw [e1, e2, e3] at h1
  rw [e2] at h2 h3 h4
  refine ⟨s1, _, by rw [mainLoop_ready]; exact h1, ?_, ?_, ?_, ?_, h2⟩
  · intro h0
    simp [h0]
  · intro h0
    have : s.note_on (cyc s.first_reported d) ≠ 0 := by omega
    simp [this]
  · rw [h3]; simp [upd]
  · rw [h4]; simp [upd]

/-- Witness for C2: channel 2 peaks at 100 and drops while the cursor is 0. -/
theorem service_pending_hit_witness :
    (mainLoop 13 (detectAll init (strike 2 100)) silence true).map (fun r => (r.2, view r.1))
      = some (some [0x09, 0x90, 36, 12],
          (3, [0, 0, 30, 0, 0, 0, 0, 0, 0, 0, 0, 0, 0], [0, 0, 0, 0, 0, 0, 0, 0, 0, 0, 0, 0, 0])) ∧
    ∃ s1 buf, mainLoop 13 (detectAll init (strike 2 100)) silence true = some (s1, some buf) ∧
      s1.note_on 2 = 30 :=
  ⟨by decide,
    (service_pending_hit (detectAll init (strike 2 100)) silence 2 13 (by decide) (by decide)
      (by decide)
      (by intro j hj; interval_cases j <;> exact ⟨by decide, by decide⟩)
      (by decide)).elim
      (fun s1 h => h.elim (fun buf hb => ⟨s1, buf, hb.1, hb.2.2.2.2.1⟩))⟩

/-- C3: on a ready pass with the cursor below 13 the scheduler block returns,
and a buffer it submits has 4 or 8 bytes (never 0) and carries the messages of
a single channel `c`: its note-off, its note-on, or its note-off followed by
its note-on. -/
theorem buffer_shape (s : State) (samples : Nat → Int) (fuel : Nat)
    (hf : s.first_reported < 13) (hfuel : 13 ≤ fuel) :
    ∃ s1 out, mainLoop fuel s samples true = some (s1, out) ∧
      ∀ buf, out = some buf →
        (buf.length = 4 ∨ buf.length = 8) ∧ buf ≠ [] ∧
        ∃ c < 13,
          buf = [0x08, 0x80, s.midi_code c, 0x00] ∨
          buf = [0x09, 0x90, s.midi_code c, (detectAll s samples).hit c] ∨
          buf = [0x08, 0x80, s.midi_code c, 0x00,
                 0x09, 0x90, s.midi_code c, (detectAll s samples).hit c] := by
  obtain ⟨_, e2, e3⟩ := detectAll_frame s samples
  have hf' : (detectAll s samples).first_reported < 13 := by rw [e2]; exact hf
  rw [mainLoop_ready]
  rcases first_stop (detectAll s samples) 13 with hall | ⟨d, hd, hp, hstop⟩
  · obtain ⟨s1, h1, _⟩ := schedule_idle _ hf' hall fuel hfuel
    exact ⟨s1, none, h1, fun buf hb => by cases hb⟩
  · rcases not_passes _ _ hstop with hh | ⟨hh, hone⟩
    · obtain ⟨s1, h1, _⟩ := schedule_hit _ hf' d hd hp hh fuel hfuel
      refine ⟨s1, _, h1, ?_⟩
      intro buf hb
      rw [e3] at hb
      have hb' := (Option.some.inj hb).symm
      by_cases h0 : (detectAll s samples).note_on
          (cyc (detectAll s samples).first_reported d) = 0
      · simp only [h0, ne_eq, not_true_eq_false, if_false] at hb'
        subst hb'
        exact ⟨Or.inl rfl, by simp, _, cyc_lt _ _, Or.inr (Or.inl rfl)⟩
      · simp only [h0, ne_eq, not_false_eq_true, if_true] at hb'
        subst hb'
        exact ⟨Or.inr rfl, by simp, _, cyc_lt _ _, Or.inr (Or.inr rfl)⟩
    · obtain ⟨s1, h1, _⟩ := schedule_off _ hf' d hd hp hh hone fuel hfuel
      refine ⟨s1, _, h1, ?_⟩
      intro buf hb
      rw [e3] at hb
      have hb' := (Option.some.inj hb).symm
      subst hb'
      exact ⟨Or.inl rfl, by simp, _, cyc_lt _ _, Or.inl rfl⟩

/-- Witness for C3: the pass that sends the note-on of channel 2. -/
theorem buffer_shape_witness :
    (detectAll init (strike 2 100)).first_reported < 13 ∧
    ∃ s1 out, mainLoop 13 (detectAll init (strike 2 100)) silence true = some (s1, out) ∧
      ∀ buf, out = some buf → (buf.length = 4 ∨ buf.length = 8) ∧ buf ≠ [] :=
  ⟨by decide,
    (buffer_shape (detectAll init (strike 2 100)) silence 13 (by decide) (by decide)).elim
      (fun s1 h => h.elim (fun out ho =>
        ⟨s1, out, ho.1, fun buf hb => ⟨(ho.2 buf hb).1, (ho.2 buf hb).2.1⟩⟩))⟩

theorem cyc_inj (f j d : Nat) (hj : j < 13) (hd : d < 13) (h : cyc f j = cyc f d) :
    j = d := by
  unfold cyc NUM_OF_CHANS at h
  omega

/-- What the scheduler block does to the cursor, the pending hits and the
timers, by the place where the scan stops. -/
theorem schedule_cases (s : State) (fuel : Nat)
    (hf : s.first_reported < 13) (hfuel : 13 ≤ fuel) :
    ∃ s1 out, schedule fuel s = some (s1, out) ∧
      (((∀ j < 13, passes s (cyc s.first_reported j)) ∧
          out = none ∧ s1.first_reported = s.first_reported ∧
          s1.new_hit = s.new_hit ∧
          ∀ j < 13, s1.note_on (cyc s.first_reported j)
            = s.note_on (cyc s.first_reported j) - 1) ∨
       ∃ d < 13, (∀ j < d, passes s (cyc s.first_reported j)) ∧
          ¬ passes s (cyc s.first_reported d) ∧
          out ≠ none ∧ s1.first_reported = (cyc s.first_reported d + 1) % 13 ∧
          (∀ x, x ≠ cyc s.first_reported d → s1.new_hit x = s.new_hit x) ∧
          (∀ j < d, s1.note_on (cyc s.first_reported j)
            = s.note_on (cyc s.first_reported j) - 1) ∧
          (∀ j, d < j → j < 13 → s1.note_on (cyc s.first_reported j)
            = s.note_on (cyc s.first_reported j))) := by
  rcases first_stop s 13 with hall | ⟨d, hd, hp, hstop⟩
  · obtain ⟨s1, h1, h2, h3, h4, _⟩ := schedule_idle s hf hall fuel hfuel
    refine ⟨s1, none, h1, Or.inl ⟨hall, rfl, h2, h3, ?_⟩⟩
    intro j hj
    rw [h4, skipped_note_on_cyc s hf 13 j hj, if_pos hj]
  · have hupd : ∀ (v : Nat) (j : Nat), j < 13 → j ≠ d →
        upd (skipped s d).note_on (cyc s.first_reported d) v (cyc s.first_reported j)
          = if j < d then s.note_on (cyc s.first_reported j) - 1
            else s.note_on (cyc s.first_reported j) := by
      intro v j hj hne
      have : cyc s.first_reported j ≠ cyc s.first_reported d :=
        fun h => hne (cyc_inj _ _ _ hj hd h)
      simp only [upd, this, if_false]
      exact skipped_note_on_cyc s hf d j hj
    rcases not_passes _ _ hstop with hh | ⟨hh, hone⟩
    · obtain ⟨s1, h1, h2, h3, h4, _⟩ := schedule_hit s hf d hd hp hh fuel hfuel
      refine ⟨s1, _, h1, Or.inr ⟨d, hd, hp, hstop, by simp, h2, ?_, ?_, ?_⟩⟩
      · intro x hx
        rw [h3]; simp [upd, hx]
      · intro j hj
        rw [h4, hupd 30 j (by omega) (by omega), if_pos hj]
      · intro j hj hj'
        rw [h4, hupd 30 j hj' (by omega), if_neg (by omega)]
    · obtain ⟨s1, h1, h2, h3, h4, _⟩ := schedule_off s hf d hd hp hh hone fuel hfuel
      refine ⟨s1, _, h1, Or.inr ⟨d, hd, hp, hstop, by simp, h2, ?_, ?_, ?_⟩⟩
      · intro x _
        rw [h3]
      · intro j hj
        rw [h4, hupd 0 j (by omega) (by omega), if_pos hj]
      · intro j hj hj'
        rw [h4, hupd 0 j hj' (by omega), if_neg (by omega)]

/-- C9 (as amended): on a ready pass the scan stops at the first channel, in
scan order from the cursor, that has a pending hit or whose timer is 1.  Only
that channel can have its pending hit changed; the channels after it in scan
order keep their timers, the channels scanned before it have their timers
decremented (when running), and the cursor moves just past it.  When no such
channel exists nothing is sent, the cursor and the pending hits are unchanged
and every running timer is decremented. -/
theorem scan_frame (s : State) (samples : Nat → Int) (fuel : Nat)
    (hf : s.first_reported < 13) (hfuel : 13 ≤ fuel) :
    ∃ s1 out, mainLoop fuel s samples true = some (s1, out) ∧
      (((∀ j < 13, passes (detectAll s samples) (cyc s.first_reported j)) ∧
          out = none ∧ s1.first_reported = s.first_reported ∧
          s1.new_hit = (detectAll s samples).new_hit ∧
          ∀ j < 13, s1.note_on (cyc s.first_reported j)
            = s.note_on (cyc s.first_reported j) - 1) ∨
       ∃ d < 13, (∀ j < d, passes (detectAll s samples) (cyc s.first_reported j)) ∧
          ¬ passes (detectAll s samples) (cyc s.first_reported d) ∧
          out ≠ none ∧ s1.first_reported = (cyc s.first_reported d + 1) % 13 ∧
          (∀ x, x ≠ cyc s.first_reported d →
            s1.new_hit x = (detectAll s samples).new_hit x) ∧
          (∀ j < d, s1.note_on (cyc s.first_reported j)
            = s.note_on (cyc s.first_reported j) - 1) ∧
          (∀ j, d < j → j < 13 → s1.note_on (cyc s.first_reported j)
            = s.note_on (cyc s.first_reported j))) := by
  obtain ⟨e1, e2, _⟩ := detectAll_frame s samples
  have hf' : (detectAll s samples).first_reported < 13 := by rw [e2]; exact hf
  rw [mainLoop_ready]
  obtain ⟨s1, out, h1, h2⟩ := schedule_cases (detectAll s samples) fuel hf' hfuel
  rw [e1, e2] at h2
  exact ⟨s1, out, h1, h2⟩

/-- Witness for C9 (as amended): the pass that services channel 2. -/
theorem scan_frame_witness :
    (detectAll init (strike 2 100)).first_reported < 13 ∧
    ∃ s1 out, mainLoop 13 (detectAll init (strike 2 100)) silence true = some (s1, out) :=
  ⟨by decide,
    (scan_frame (detectAll init (strike 2 100)) silence 13 (by decide) (by decide)).elim
      (fun s1 h => h.elim (fun out ho => ⟨s1, out, ho.1⟩))⟩

/-- Counterexample to C9 as stated: channels 0 and 1 are struck together and
serviced in two passes, which leaves the cursor at 2, both timers at 30 and no
hit pending.  The next ready pass does not stop at channel 0, the first
channel from the cursor with a non-zero timer: it sends nothing, leaves the
cursor at 2 and decrements the timers of both channels. -/
theorem scan_touches_two_timers :
    (runLoop init [(fun x => if x = 0 ∨ x = 1 then 100 else 0, true), (silence, true),
        (silence, true)]).map (fun r => (r.2, view r.1))
      = some ([none, some [0x09, 0x90, 38, 12], some [0x09, 0x90, 41, 12]],
          (2, [30, 30, 0, 0, 0, 0, 0, 0, 0, 0, 0, 0, 0],
            [0, 0, 0, 0, 0, 0, 0, 0, 0, 0, 0, 0, 0])) ∧
    (runLoop init [(fun x => if x = 0 ∨ x = 1 then 100 else 0, true), (silence, true),
        (silence, true), (silence, true)]).map (fun r => (r.2, view r.1))
      = some ([none, some [0x09, 0x90, 38, 12], some [0x09, 0x90, 41, 12], none],
          (2, [29, 29, 0, 0, 0, 0, 0, 0, 0, 0, 0, 0, 0],
            [0, 0, 0, 0, 0, 0, 0, 0, 0, 0, 0, 0, 0])) := by
  constructor <;> decide

/-! ### Bounded wait -/

/-- With the cursor below 13 the scheduler block returns within 13 iterations
of the scan, and leaves the cursor below 13 and the note table as it was. -/
theorem schedule_total (s : State) (fuel : Nat) (hf : s.first_reported < 13)
    (hfuel : 13 ≤ fuel) :
    ∃ s1 out, schedule fuel s = some (s1, out) ∧ s1.first_reported < 13 ∧
      s1.midi_code = s.midi_code := by
  rcases first_stop s 13 with hall | ⟨d, hd, hp, hstop⟩
  · obtain ⟨s1, h1, h2, _, _, _, h6, _⟩ := schedule_idle s hf hall fuel hfuel
    exact ⟨s1, none, h1, by rw [h2]; exact hf, h6⟩
  · rcases not_passes _ _ hstop with hh | ⟨hh, hone⟩
    · obtain ⟨s1, h1, h2, _, _, _, h6, _⟩ := schedule_hit s hf d hd hp hh fuel hfuel
      exact ⟨s1, _, h1, by rw [h2]; exact Nat.mod_lt _ (by decide), h6⟩
    · obtain ⟨s1, h1, h2, _, _, _, h6, _⟩ := schedule_off s hf d hd hp hh hone fuel hfuel
      exact ⟨s1, _, h1, by rw [h2]; exact Nat.mod_lt _ (by decide), h6⟩

/-- A pass of the main loop returns and keeps the cursor below 13. -/
theorem mainLoop_total (s : State) (samples : Nat → Int) (ready : Bool)
    (hf : s.first_reported < 13) :
    ∃ s1 out, mainLoop NUM_OF_CHANS s samples ready = some (s1, out) ∧
      s1.first_reported < 13 ∧ s1.midi_code = s.midi_code := by
  obtain ⟨_, e2, e3⟩ := detectAll_frame s samples
  cases ready with
  | false => exact ⟨_, none, by simp [mainLoop], by rw [e2]; exact hf, e3⟩
  | true =>
    rw [mainLoop_ready]
    obtain ⟨s1, out, h1, h2, h3⟩ :=
      schedule_total (detectAll s samples) NUM_OF_CHANS (by rw [e2]; exact hf) (le_refl _)
    exact ⟨s1, out, h1, h2, h3.trans e3⟩

/-- A run of the main loop returns, with one output per pass. -/
theorem runLoop_total (inputs : List ((Nat → Int) × Bool)) (s : State)
    (hf : s.first_reported < 13) :
    ∃ s1 outs, runLoop s inputs = some (s1, outs) ∧ outs.length = inputs.length := by
  induction inputs generalizing s with
  | nil => exact ⟨s, [], rfl, rfl⟩
  | cons p ps ih =>
    obtain ⟨s1, out, h1, h2, _⟩ := mainLoop_total s p.1 p.2 hf
    obtain ⟨s2, outs, h3, h4⟩ := ih s1 h2
    exact ⟨s2, out :: outs, by simp [runLoop, h1, h3], by simp [h4]⟩

theorem cyc_dist (f c : Nat) (hf : f < 13) (hc : c < 13) : cyc f (dist f c) = c := by
  unfold cyc dist NUM_OF_CHANS; omega

theorem dist_lt (f c : Nat) : dist f c < 13 := by
  unfold dist NUM_OF_CHANS; omega

/-- A ready pass either services the pending channel `c` or brings the cursor
strictly closer to it, leaving its hit pending. -/
theorem schedule_progress (s : State) (c fuel : Nat) (hf : s.first_reported < 13)
    (hc : c < 13) (hh : s.new_hit c ≠ 0) (hfuel : 13 ≤ fuel) :
    ∃ s1 out, schedule fuel s = some (s1, out) ∧ s1.first_reported < 13 ∧
      s1.midi_code = s.midi_code ∧
      ((∃ buf, out = some buf ∧ carriesNoteOn buf (s.midi_code c) (s.hit c) ∧
          s1.new_hit c = 0 ∧ s1.note_on c = 30) ∨
       (out ≠ none ∧ s1.new_hit c ≠ 0 ∧ s1.hit c = s.hit c ∧
          dist s1.first_reported c < dist s.first_reported c)) := by
  have hcd := cyc_dist s.first_reported c hf hc
  have hD := dist_lt s.first_reported c
  have hnp : ¬ passes s (cyc s.first_reported (dist s.first_reported c)) := by
    rw [hcd]; exact fun h => hh h.1
  rcases first_stop s 13 with hall | ⟨d, hd, hp, hstop⟩
  · exact absurd (hall _ hD) hnp
  · have hle : d ≤ dist s.first_reported c := by
      by_contra hlt
      exact hnp (hp _ (by omega))
    rcases Nat.eq_or_lt_of_le hle with heq | hlt
    · rw [heq, hcd] at hstop
      rw [heq] at hp
      have hh' : s.new_hit (cyc s.first_reported (dist s.first_reported c)) ≠ 0 := by
        rw [hcd]; exact hh
      obtain ⟨s1, h1, h2, h3, h4, _, h6, _⟩ := schedule_hit s hf _ hD hp hh' fuel hfuel
      rw [hcd] at h1 h2 h3 h4
      refine ⟨s1, _, h1, by rw [h2]; exact Nat.mod_lt _ (by decide), h6, Or.inl ⟨_, rfl, ?_, ?_, ?_⟩⟩
      · unfold carriesNoteOn
        by_cases h0 : s.note_on c = 0
        · left; simp [h0]
        · right; simp [h0]
      · rw [h3]; simp [upd]
      · rw [h4]; simp [upd]
    · have hne : c ≠ cyc s.first_reported d := by
        intro h
        rw [← hcd] at h
        have := cyc_inj _ _ _ hD hd h
        omega
      have hdist : dist ((cyc s.first_reported d + 1) % 13) c < dist s.first_reported c := by
        unfold cyc dist NUM_OF_CHANS at *
        omega
      rcases not_passes _ _ hstop with hh1 | ⟨hh1, hone⟩
      · obtain ⟨s1, h1, h2, h3, _, h5, h6, _⟩ := schedule_hit s hf d hd hp hh1 fuel hfuel
        refine ⟨s1, _, h1, by rw [h2]; exact Nat.mod_lt _ (by decide), h6,
          Or.inr ⟨by simp, ?_, by rw [h5], by rw [h2]; exact hdist⟩⟩
        rw [h3]; simp [upd, hne]; exact hh
      · obtain ⟨s1, h1, h2, h3, _, h5, h6, _⟩ := schedule_off s hf d hd hp hh1 hone fuel hfuel
        refine ⟨s1, _, h1, by rw [h2]; exact Nat.mod_lt _ (by decide), h6,
          Or.inr ⟨by simp, ?_, by rw [h5], by rw [h2]; exact hdist⟩⟩
        rw [h3]; exact hh

theorem readyCount_cons (p : (Nat → Int) × Bool) (ps : List ((Nat → Int) × Bool)) :
    readyCount (p :: ps) = (if p.2 then 1 else 0) + readyCount ps := by
  unfold readyCount
  cases h : p.2
  · simp [List.filter, h]
  · simp [List.filter, h]
    omega

/-- Every reachable state has its cursor below 13 and the note table of the
initial state. -/
theorem reachable_cursor_lt (s : State) (h : Reachable s) :
    s.first_reported < 13 ∧ s.midi_code = init.midi_code := by
  induction h with
  | start => exact ⟨by decide, rfl⟩
  | pass s s1 samples ready out _ hstep ih =>
    obtain ⟨s2, out2, h1, h2, h3⟩ := mainLoop_total s samples ready ih.1
    rw [hstep] at h1
    obtain ⟨rfl, _⟩ := Prod.mk.inj (Option.some.inj h1)
    exact ⟨h2, h3.trans ih.2⟩

/-- In the note table of the program no two channels share a note. -/
theorem midi_code_injective (x c : Nat) (hx : x < 13) (hc : c < 13)
    (h : init.midi_code x = init.midi_code c) : x = c := by
  interval_cases x <;> interval_cases c <;> first | rfl | exact absurd h (by decide)

/-- A pending hit is sent once the run has had more ready passes than the
distance from the cursor to its channel. -/
theorem runLoop_wait (inputs : List ((Nat → Int) × Bool)) (s : State) (c : Nat)
    (hf : s.first_reported < 13) (hc : c < 13) (hh : s.new_hit c ≠ 0)
    (hr : dist s.first_reported c < readyCount inputs) :
    ∃ s1 outs, runLoop s inputs = some (s1, outs) ∧
      ∃ i buf, outs[i]? = some (some buf) ∧
        carriesNoteOn buf (s.midi_code c) (s.hit c) ∧
        readyCount (inputs.take (i + 1)) ≤ dist s.first_reported c + 1 := by
  induction inputs generalizing s with
  | nil => simp [readyCount] at hr
  | cons p ps ih =>
    obtain ⟨_, e2, e3⟩ := detectAll_frame s p.1
    obtain ⟨hp1, hp2⟩ := detectAll_pending s p.1 c hh
    rw [readyCount_cons] at hr
    cases hready : p.2 with
    | false =>
      simp only [hready, Bool.false_eq_true, if_false, zero_add] at hr
      have hm : mainLoop NUM_OF_CHANS s p.1 p.2 = some (detectAll s p.1, none) := by
        simp [mainLoop, hready]
      rw [← e2] at hr
      obtain ⟨s1, outs, h1, i, buf, h2, h3, h4⟩ :=
        ih (detectAll s p.1) (by rw [e2]; exact hf) hp1 hr
      refine ⟨s1, none :: outs, by simp [runLoop, hm, h1], i + 1, buf, by simpa using h2, ?_, ?_⟩
      · rw [← e3, ← hp2]; exact h3
      · rw [List.take_succ_cons, readyCount_cons, hready, ← e2]
        simpa using h4
    | true =>
      have hm : mainLoop NUM_OF_CHANS s p.1 p.2 = schedule NUM_OF_CHANS (detectAll s p.1) := by
        rw [hready, mainLoop_ready]
      obtain ⟨s1, out, k1, k2, k3, k4⟩ :=
        schedule_progress (detectAll s p.1) c NUM_OF_CHANS (by rw [e2]; exact hf) hc hp1
          (le_refl _)
      rw [e2, e3, hp2] at k4
      rcases k4 with ⟨buf, hb, hcarry, _, _⟩ | ⟨_, hpend, hhit, hd⟩
      · obtain ⟨s2, outs, h1, _⟩ := runLoop_total ps s1 k2
        refine ⟨s2, out :: outs, by simp [runLoop, hm, k1, h1], 0, buf, by simp [hb], hcarry, ?_⟩
        rw [List.take_succ_cons, readyCount_cons, hready]
        simp [readyCount]
      · simp only [hready, if_true] at hr
        obtain ⟨s2, outs, h1, i, buf, h2, h3, h4⟩ := ih s1 k2 hpend (by omega)
        refine ⟨s2, out :: outs, by simp [runLoop, hm, k1, h1], i + 1, buf, by simpa using h2,
          ?_, ?_⟩
        · rw [← e3, ← k3, ← hhit]; exact h3
        · rw [List.take_succ_cons, readyCount_cons, hready]
          simp only [if_true]
          omega

/-- C4: from a state with the cursor below 13 (every reachable state) in which
channel `c` has a pending hit, whatever samples the detectors are fed and
whatever the other channels do, the note-on of `c`, with the velocity stored
at detection, is sent within the first 13 ready passes; and every ready pass
either sends it or leaves the hit pending and the cyclic distance from the
cursor to `c` strictly smaller. -/
theorem bounded_wait (s : State) (c : Nat) (inputs : List ((Nat → Int) × Bool))
    (hf : s.first_reported < 13) (hc : c < 13) (hh : s.new_hit c ≠ 0)
    (hr : 13 ≤ readyCount inputs) :
    (∃ s1 outs, runLoop s inputs = some (s1, outs) ∧
      ∃ i buf, outs[i]? = some (some buf) ∧
        carriesNoteOn buf (s.midi_code c) (s.hit c) ∧
        readyCount (inputs.take (i + 1)) ≤ 13) ∧
    (∀ samples : Nat → Int, ∃ s1 out,
      mainLoop NUM_OF_CHANS s samples true = some (s1, out) ∧
      ((∃ buf, out = some buf ∧ carriesNoteOn buf (s.midi_code c) (s.hit c) ∧
          s1.new_hit c = 0) ∨
       (s1.new_hit c ≠ 0 ∧ dist s1.first_reported c < dist s.first_reported c))) := by
  have hD := dist_lt s.first_reported c
  constructor
  · obtain ⟨s1, outs, h1, i, buf, h2, h3, h4⟩ := runLoop_wait inputs s c hf hc hh (by omega)
    exact ⟨s1, outs, h1, i, buf, h2, h3, by omega⟩
  · intro samples
    obtain ⟨_, e2, e3⟩ := detectAll_frame s samples
    obtain ⟨hp1, hp2⟩ := detectAll_pending s samples c hh
    obtain ⟨s1, out, k1, _, _, k4⟩ :=
      schedule_progress (detectAll s samples) c NUM_OF_CHANS (by rw [e2]; exact hf) hc hp1
        (le_refl _)
    rw [e2, e3, hp2] at k4
    refine ⟨s1, out, by rw [mainLoop_ready]; exact k1, ?_⟩
    rcases k4 with ⟨buf, hb, hcarry, hz, _⟩ | ⟨_, hpend, _, hd⟩
    · exact Or.inl ⟨buf, hb, hcarry, hz⟩
    · exact Or.inr ⟨hpend, hd⟩

/-- Witness for C4: channels 0, 1 and 2 peak together and drop; channel 2 waits
behind the other two. -/
theorem bounded_wait_witness :
    (detectAll (detectAll init (fun x => if x < 3 then 100 else 0)) silence).new_hit 2 ≠ 0 ∧
    ∃ s1 outs,
      runLoop (detectAll (detectAll init (fun x => if x < 3 then 100 else 0)) silence)
        (List.replicate 13 (silence, true)) = some (s1, outs) ∧
      ∃ i buf, outs[i]? = some (some buf) ∧
        carriesNoteOn buf
          ((detectAll (detectAll init (fun x => if x < 3 then 100 else 0)) silence).midi_code 2)
          ((detectAll (detectAll init (fun x => if x < 3 then 100 else 0)) silence).hit 2) ∧
        readyCount ((List.replicate 13 (silence, true)).take (i + 1)) ≤ 13 :=
  ⟨by decide,
    (bounded_wait (detectAll (detectAll init (fun x => if x < 3 then 100 else 0)) silence) 2
      (List.replicate 13 (silence, true)) (by decide) (by decide) (by decide) (by decide)).1⟩

/-- A property of all scheduler-entry states holds of the first one. -/
theorem readyStates_head (P : State → Prop) {s : State} {p : (Nat → Int) × Bool}
    {ps : List ((Nat → Int) × Bool)} (h : ∀ t ∈ readyStates s (p :: ps), P t)
    (hready : p.2 = true) : P (detectAll s p.1) := by
  apply h
  simp [readyStates, hready]

/-- A property of all scheduler-entry states of a run holds in the rest of
the run. -/
theorem readyStates_tail (P : State → Prop) {s s1 : State} {p : (Nat → Int) × Bool}
    {out : Option (List Nat)} {ps : List ((Nat → Int) × Bool)}
    (h : ∀ t ∈ readyStates s (p :: ps), P t)
    (hm : mainLoop NUM_OF_CHANS s p.1 p.2 = some (s1, out)) :
    ∀ t ∈ readyStates s1 ps, P t := by
  intro t ht
  apply h
  simp only [readyStates, hm, List.mem_append]
  exact Or.inr ht

/-! ### Round-robin fairness -/

theorem cyc_cyc (f a b : Nat) : cyc (cyc f a) b = cyc f (a + b) := by
  unfold cyc NUM_OF_CHANS; omega

theorem ahead_pos (S : Finset Nat) (f c : Nat) (hf : f < 13) (hc : c < 13) (hS : c ∈ S) :
    1 ≤ ahead S f c := by
  unfold ahead
  rw [Nat.count_succ, if_pos (by rw [cyc_dist f c hf hc]; exact hS)]
  omega

theorem ahead_le_card (S : Finset Nat) (f c : Nat) : ahead S f c ≤ S.card := by
  unfold ahead
  have h1 : Nat.count (fun j => cyc f j ∈ S) (dist f c + 1)
      ≤ Nat.count (fun j => cyc f j ∈ S) 13 :=
    Nat.count_monotone _ (by have := dist_lt f c; omega)
  refine le_trans h1 ?_
  rw [Nat.count_eq_card_filter_range]
  apply Finset.card_le_card_of_injOn (fun j => cyc f j)
  · intro j hj
    have hj' := Finset.mem_filter.mp (Finset.mem_coe.mp hj)
    exact Finset.mem_coe.mpr hj'.2
  · intro a ha b hb hab
    have ha' := Finset.mem_filter.mp (Finset.mem_coe.mp ha)
    have hb' := Finset.mem_filter.mp (Finset.mem_coe.mp hb)
    exact cyc_inj f a b (Finset.mem_range.mp ha'.1) (Finset.mem_range.mp hb'.1) hab

/-- When the scan stops at the first channel of `S`, at scan position `d`
before `c`, one channel of `S` fewer is ahead of `c` from the new cursor. -/
theorem ahead_step (S : Finset Nat) (f c d : Nat) (hc : c < 13)
    (hd : d < dist f c) (hbefore : ∀ j < d, cyc f j ∉ S) (hat : cyc f d ∈ S) :
    ahead S ((cyc f d + 1) % 13) c + 1 = ahead S f c := by
  have hnew : (cyc f d + 1) % 13 = cyc f (d + 1) := by
    unfold cyc NUM_OF_CHANS; omega
  have hdist : dist (cyc f (d + 1)) c + 1 = dist f c - d := by
    have := dist_lt f c
    unfold cyc dist NUM_OF_CHANS at *
    omega
  unfold ahead
  rw [hnew, hdist, show dist f c + 1 = (d + 1) + (dist f c - d) by omega, Nat.count_add,
    Nat.count_succ, if_pos hat, Nat.count_iff_forall_not.mpr hbefore]
  have hcount : ∀ n, Nat.count (fun j => cyc (cyc f (d + 1)) j ∈ S) n
      = Nat.count (fun k => cyc f (d + 1 + k) ∈ S) n := by
    intro n
    induction n with
    | zero => simp
    | succ n ih => rw [Nat.count_succ, Nat.count_succ, ih, cyc_cyc]
  rw [hcount]
  omega

/-- A ready pass in which every channel of `S` has a pending hit and every
other channel is passed over services the first channel of `S` in scan
order: either that is `c`, or one channel of `S` fewer is ahead of `c`. -/
theorem schedule_fair_step (S : Finset Nat) (s : State) (c fuel : Nat)
    (hf : s.first_reported < 13) (hS : ∀ x ∈ S, x < 13) (hc : c ∈ S)
    (hP1 : ∀ x ∈ S, s.new_hit x ≠ 0) (hP2 : ∀ x < 13, x ∉ S → passes s x)
    (hfuel : 13 ≤ fuel) :
    ∃ s1 out, schedule fuel s = some (s1, out) ∧ s1.first_reported < 13 ∧
      s1.midi_code = s.midi_code ∧
      ((∃ buf, out = some buf ∧ carriesNoteOn buf (s.midi_code c) (s.hit c)) ∨
       ahead S s1.first_reported c + 1 = ahead S s.first_reported c) := by
  have hc13 := hS c hc
  have hcd := cyc_dist s.first_reported c hf hc13
  have hD := dist_lt s.first_reported c
  have hnp : ∀ x ∈ S, ¬ passes s x := fun x hx h => hP1 x hx h.1
  rcases first_stop s 13 with hall | ⟨d, hd, hp, hstop⟩
  · exact absurd (hcd ▸ hall _ hD) (hnp c hc)
  · have hin : cyc s.first_reported d ∈ S := by
      by_contra hnot
      exact hstop (hP2 _ (cyc_lt _ _) hnot)
    have hbefore : ∀ j < d, cyc s.first_reported j ∉ S :=
      fun j hj hmem => hnp _ hmem (hp j hj)
    have hle : d ≤ dist s.first_reported c := by
      by_contra hlt
      exact hbefore (dist s.first_reported c) (by omega) (by rw [hcd]; exact hc)
    obtain ⟨s1, h1, h2, _, _, _, h6, _⟩ :=
      schedule_hit s hf d hd hp (hP1 _ hin) fuel hfuel
    refine ⟨s1, _, h1, by rw [h2]; exact Nat.mod_lt _ (by decide), h6, ?_⟩
    rcases Nat.eq_or_lt_of_le hle with heq | hlt
    · left
      refine ⟨_, rfl, ?_⟩
      rw [heq, hcd]
      unfold carriesNoteOn
      by_cases h0 : s.note_on c = 0
      · left; simp [h0]
      · right; simp [h0]
    · right
      rw [h2]
      exact ahead_step S s.first_reported c d hc13 hlt hbefore hin

/-- Under the fairness hypothesis a channel of `S` is sent once the run has
had as many ready passes as there are channels of `S` ahead of it. -/
theorem runLoop_fair (S : Finset Nat) (hS : ∀ x ∈ S, x < 13) (c : Nat) (hc : c ∈ S)
    (inputs : List ((Nat → Int) × Bool)) (s : State) (hf : s.first_reported < 13)
    (hfair : ∀ t ∈ readyStates s inputs, (∀ x ∈ S, t.new_hit x ≠ 0) ∧
      ∀ x < 13, x ∉ S → passes t x)
    (hr : ahead S s.first_reported c ≤ readyCount inputs) :
    ∃ s1 outs, runLoop s inputs = some (s1, outs) ∧
      ∃ i buf vel, outs[i]? = some (some buf) ∧
        carriesNoteOn buf (s.midi_code c) vel ∧
        readyCount (inputs.take (i + 1)) ≤ ahead S s.first_reported c := by
  induction inputs generalizing s with
  | nil =>
    have := ahead_pos S s.first_reported c hf (hS c hc) hc
    simp [readyCount] at hr
    omega
  | cons p ps ih =>
    obtain ⟨_, e2, e3⟩ := detectAll_frame s p.1
    rw [readyCount_cons] at hr
    cases hready : p.2 with
    | false =>
      simp only [hready, Bool.false_eq_true, if_false, zero_add] at hr
      have hm : mainLoop NUM_OF_CHANS s p.1 p.2 = some (detectAll s p.1, none) := by
        simp [mainLoop, hready]
      rw [← e2] at hr
      obtain ⟨s1, outs, h1, i, buf, vel, h2, h3, h4⟩ :=
        ih (detectAll s p.1) (by rw [e2]; exact hf) (readyStates_tail (fun t => (∀ x ∈ S, t.new_hit x ≠ 0) ∧ ∀ x < 13, x ∉ S → passes t x) hfair hm) hr
      refine ⟨s1, none :: outs, by simp [runLoop, hm, h1], i + 1, buf, vel, by simpa using h2,
        ?_, ?_⟩
      · rw [← e3]; exact h3
      · rw [List.take_succ_cons, readyCount_cons, hready, ← e2]
        simpa using h4
    | true =>
      have hm : mainLoop NUM_OF_CHANS s p.1 p.2 = schedule NUM_OF_CHANS (detectAll s p.1) := by
        rw [hready, mainLoop_ready]
      obtain ⟨hP1, hP2⟩ := readyStates_head (fun t => (∀ x ∈ S, t.new_hit x ≠ 0) ∧ ∀ x < 13, x ∉ S → passes t x) hfair hready
      obtain ⟨s1, out, k1, k2, k3, k4⟩ :=
        schedule_fair_step S (detectAll s p.1) c NUM_OF_CHANS (by rw [e2]; exact hf) hS hc
          hP1 hP2 (le_refl _)
      rw [e2, e3] at k4
      have hpos := ahead_pos S s.first_reported c hf (hS c hc) hc
      rcases k4 with ⟨buf, hb, hcarry⟩ | hdec
      · obtain ⟨s2, outs, h1, _⟩ := runLoop_total ps s1 k2
        refine ⟨s2, out :: outs, by simp [runLoop, hm, k1, h1], 0, buf, _, by simp [hb],
          hcarry, ?_⟩
        rw [List.take_succ_cons, readyCount_cons, hready]
        simp only [List.take_zero, if_true, readyCount, List.filter_nil, List.length_nil]
        omega
      · simp only [hready, if_true] at hr
        obtain ⟨s2, outs, h1, i, buf, vel, h2, h3, h4⟩ :=
          ih s1 k2 (readyStates_tail (fun t => (∀ x ∈ S, t.new_hit x ≠ 0) ∧ ∀ x < 13, x ∉ S → passes t x) hfair (hm.trans k1)) (by omega)
        refine ⟨s2, out :: outs, by simp [runLoop, hm, k1, h1], i + 1, buf, vel,
          by simpa using h2, ?_, ?_⟩
        · rw [← e3, ← k3]; exact h3
        · rw [List.take_succ_cons, readyCount_cons, hready]
          simp only [if_true]
          omega

/-- C5 (as amended): let `S` be a set of `K` channels each of which has a
pending hit at every ready pass of the run, while at those passes no other
channel has a pending hit or a timer that expires (timer equal to 1).  Then
the run returns and the note-on of each channel of `S` is sent within the
first `K` ready passes. -/
theorem round_robin_fair (S : Finset Nat) (K : Nat) (s : State)
    (inputs : List ((Nat → Int) × Bool))
    (hf : s.first_reported < 13) (hS : ∀ x ∈ S, x < 13) (hK : S.card = K)
    (hfair : ∀ t ∈ readyStates s inputs, (∀ x ∈ S, t.new_hit x ≠ 0) ∧
      ∀ x < 13, x ∉ S → passes t x)
    (hr : K ≤ readyCount inputs) :
    ∃ s1 outs, runLoop s inputs = some (s1, outs) ∧
      ∀ c ∈ S, ∃ i buf vel, outs[i]? = some (some buf) ∧
        carriesNoteOn buf (s.midi_code c) vel ∧
        readyCount (inputs.take (i + 1)) ≤ K := by
  obtain ⟨s1, outs, h1, _⟩ := runLoop_total inputs s hf
  refine ⟨s1, outs, h1, ?_⟩
  intro c hc
  have hle := ahead_le_card S s.first_reported c
  obtain ⟨s2, outs2, k1, i, buf, vel, k2, k3, k4⟩ :=
    runLoop_fair S hS c hc inputs s hf hfair (by omega)
  rw [h1] at k1
  obtain ⟨_, rfl⟩ := Prod.mk.inj (Option.some.inj k1)
  exact ⟨i, buf, vel, k2, k3, by omega⟩

set_option maxRecDepth 100000 in
/-- Witness for C5 (as amended): `S = {0, 1}`.  Both channels peak and drop
together; the first ready pass services channel 0, which is struck again
during three passes without readiness, and the second ready pass services
channel 1. -/
theorem round_robin_fair_witness :
    init.first_reported < 13 ∧
    ∃ s1 outs,
      runLoop init [(fun x => if x < 2 then 100 else 0, false), (silence, true),
        (silence, false), (strike 0 5, false), (strike 0 100, false), (silence, true)]
        = some (s1, outs) ∧
      ∀ c ∈ ({0, 1} : Finset Nat), ∃ i buf vel, outs[i]? = some (some buf) ∧
        carriesNoteOn buf (init.midi_code c) vel ∧
        readyCount ([((fun x => if x < 2 then 100 else 0 : Nat → Int), false), (silence, true),
          (silence, false), (strike 0 5, false), (strike 0 100, false),
          (silence, true)].take (i + 1)) ≤ 2 :=
  ⟨by decide,
    round_robin_fair {0, 1} 2 init
      [(fun x => if x < 2 then 100 else 0, false), (silence, true),
        (silence, false), (strike 0 5, false), (strike 0 100, false), (silence, true)]
      (by decide) (by decide) (by decide) (by decide) (by decide)⟩

set_option maxRecDepth 100000 in
/-- Counterexample to C5 as stated, with `K = 1` and `S = {5}`.  Channels 0 and
7 are struck and serviced, 29 quiet passes follow and channel 5 peaks in the
last pass: the cursor is 8, the timers of channels 0 and 7 are 1 and no hit is
pending.  In the next ready pass channel 5 is the only channel with a pending
hit, yet the pass sends the note-off of channel 0 (note 38) and channel 5 is
still pending after it. -/
theorem expiring_timer_takes_the_slot :
    (runLoop init ([(strike 0 100, true), (strike 7 100, true)]
        ++ List.replicate 29 (silence, true) ++ [(strike 5 100, true)])).map
        (fun r => (view r.1, (List.range 13).map (detectAll r.1 silence).new_hit))
      = some ((8, [1, 0, 0, 0, 0, 0, 0, 1, 0, 0, 0, 0, 0],
                  [0, 0, 0, 0, 0, 0, 0, 0, 0, 0, 0, 0, 0]),
              [0, 0, 0, 0, 0, 1, 0, 0, 0, 0, 0, 0, 0]) ∧
    (runLoop init ([(strike 0 100, true), (strike 7 100, true)]
        ++ List.replicate 29 (silence, true) ++ [(strike 5 100, true)]
        ++ [(silence, true)])).map (fun r => (r.2.getLast?, view r.1))
      = some (some (some [0x08, 0x80, 38, 0x00]),
              (1, [0, 0, 0, 0, 0, 0, 0, 1, 0, 0, 0, 0, 0],
                  [0, 0, 0, 0, 0, 1, 0, 0, 0, 0, 0, 0, 0])) := by
  constructor <;> decide

/-! ### Sustain and note-off -/

/-- An iteration of the scan writes neither velocities, stages, peaks, the
note table nor the cursor, and it can clear a pending hit but not set one. -/
theorem loopBody_frame (s : State) :
    (loopBody s).1.hit = s.hit ∧ (loopBody s).1.midi_code = s.midi_code ∧
    (loopBody s).1.stage = s.stage ∧ (loopBody s).1.vmax = s.vmax ∧
    (loopBody s).1.first_reported = s.first_reported ∧
    ∀ c, (loopBody s).1.new_hit c ≠ 0 → s.new_hit c ≠ 0 := by
  unfold loopBody loopTail
  dsimp only
  repeat' split
  all_goals simp [put, next_i1, upd]

/-- The scan, however long it runs, has the frame of its iterations. -/
theorem scanLoop_frame (fuel : Nat) (s s1 : State) (h : scanLoop fuel s = some s1) :
    s1.hit = s.hit ∧ s1.midi_code = s.midi_code ∧ s1.stage = s.stage ∧ s1.vmax = s.vmax ∧
    s1.first_reported = s.first_reported ∧ ∀ c, s1.new_hit c ≠ 0 → s.new_hit c ≠ 0 := by
  induction fuel generalizing s with
  | zero => simp [scanLoop] at h
  | succ n ih =>
    obtain ⟨h1, h2, h3, h4, h5, h6⟩ := loopBody_frame s
    rw [scanLoop] at h
    by_cases hb : (loopBody s).2 = true
    · simp only [hb, if_true, Option.some.injEq] at h
      subst h
      exact ⟨h1, h2, h3, h4, h5, h6⟩
    · simp only [hb, Bool.false_eq_true, if_false] at h
      obtain ⟨k1, k2, k3, k4, k5, k6⟩ := ih _ h
      exact ⟨k1.trans h1, k2.trans h2, k3.trans h3, k4.trans h4, k5.trans h5,
        fun c hc => h6 c (k6 c hc)⟩

/-- The scheduler block writes neither velocities, stages, peaks nor the note
table, and it can clear a pending hit but not set one. -/
theorem schedule_frame (fuel : Nat) (s s1 : State) (out : Option (List Nat))
    (h : schedule fuel s = some (s1, out)) :
    s1.hit = s.hit ∧ s1.midi_code = s.midi_code ∧ s1.stage = s.stage ∧ s1.vmax = s.vmax ∧
    ∀ c, s1.new_hit c ≠ 0 → s.new_hit c ≠ 0 := by
  unfold schedule at h
  cases hs : scanLoop fuel (scanEntry s) with
  | none => simp [hs] at h
  | some t =>
    obtain ⟨k1, k2, k3, k4, _, k6⟩ := scanLoop_frame fuel _ t hs
    simp only [hs, Option.some.injEq, Prod.mk.injEq] at h
    obtain ⟨rfl, _⟩ := h
    exact ⟨k1, k2, k3, k4, k6⟩

/-- A pass of the main loop writes neither the note table nor, for a channel
whose hit is pending at the start of the pass, the velocity. -/
theorem mainLoop_frame (fuel : Nat) (s s1 : State) (samples : Nat → Int) (ready : Bool)
    (out : Option (List Nat)) (h : mainLoop fuel s samples ready = some (s1, out)) :
    s1.midi_code = s.midi_code ∧ ∀ c, s.new_hit c ≠ 0 → s1.hit c = s.hit c := by
  obtain ⟨_, _, e3⟩ := detectAll_frame s samples
  cases ready with
  | false =>
    simp only [mainLoop, Bool.false_eq_true, if_false, Option.some.injEq, Prod.mk.injEq] at h
    obtain ⟨rfl, _⟩ := h
    exact ⟨e3, fun c hc => (detectAll_pending s samples c hc).2⟩
  | true =>
    rw [mainLoop_ready] at h
    obtain ⟨k1, k2, _⟩ := schedule_frame fuel _ s1 out h
    exact ⟨k2.trans e3, fun c hc => by rw [k1]; exact (detectAll_pending s samples c hc).2⟩

/-! ### Velocity is frozen while a hit is pending -/

/-- From a state in which the hit of `c` is pending, a run either leaves it
pending with the same velocity or has sent its note-on with that velocity. -/
theorem runLoop_frozen (inputs : List ((Nat → Int) × Bool)) (s : State) (c : Nat)
    (hf : s.first_reported < 13) (hc : c < 13) (hh : s.new_hit c ≠ 0) :
    ∃ s1 outs, runLoop s inputs = some (s1, outs) ∧
      ((s1.new_hit c ≠ 0 ∧ s1.hit c = s.hit c) ∨
       ∃ (i : Nat) (buf : List Nat), outs[i]? = some (some buf) ∧
         carriesNoteOn buf (s.midi_code c) (s.hit c)) := by
  induction inputs generalizing s with
  | nil => exact ⟨s, [], rfl, Or.inl ⟨hh, rfl⟩⟩
  | cons p ps ih =>
    obtain ⟨_, e2, e3⟩ := detectAll_frame s p.1
    obtain ⟨hp1, hp2⟩ := detectAll_pending s p.1 c hh
    cases hready : p.2 with
    | false =>
      have hm : mainLoop NUM_OF_CHANS s p.1 p.2 = some (detectAll s p.1, none) := by
        simp [mainLoop, hready]
      obtain ⟨s1, outs, h1, h2⟩ := ih (detectAll s p.1) (by rw [e2]; exact hf) hp1
      refine ⟨s1, none :: outs, by simp [runLoop, hm, h1], ?_⟩
      rw [hp2, e3] at h2
      rcases h2 with h2 | ⟨i, buf, h3, h4⟩
      · exact Or.inl h2
      · exact Or.inr ⟨i + 1, buf, by simpa using h3, h4⟩
    | true =>
      have hm : mainLoop NUM_OF_CHANS s p.1 p.2 = schedule NUM_OF_CHANS (detectAll s p.1) := by
        rw [hready, mainLoop_ready]
      obtain ⟨s1, out, k1, k2, k3, k4⟩ :=
        schedule_progress (detectAll s p.1) c NUM_OF_CHANS (by rw [e2]; exact hf) hc hp1
          (le_refl _)
      rw [e3, hp2] at k4
      rcases k4 with ⟨buf, hb, hcarry, _, _⟩ | ⟨_, hpend, hhit, _⟩
      · obtain ⟨s2, outs, h1, _⟩ := runLoop_total ps s1 k2
        exact ⟨s2, out :: outs, by simp [runLoop, hm, k1, h1],
          Or.inr ⟨0, buf, by simp [hb], hcarry⟩⟩
      · obtain ⟨s2, outs, h1, h2⟩ := ih s1 k2 hpend
        refine ⟨s2, out :: outs, by simp [runLoop, hm, k1, h1], ?_⟩
        rw [hhit, k3, e3] at h2
        rcases h2 with h2 | ⟨i, buf, h3, h4⟩
        · exact Or.inl h2
        · exact Or.inr ⟨i + 1, buf, by simpa using h3, h4⟩

/-- C11: a pass of the main loop, ready or not, leaves the velocity of a
channel whose hit is pending at its start as it was; hence, in any run from
such a state (cursor below 13), the hit is either still pending with the same
velocity or its note-on has been sent with the velocity stored at
detection. -/
theorem velocity_frozen (s : State) (c : Nat) (hh : s.new_hit c ≠ 0) :
    (∀ (fuel : Nat) (samples : Nat → Int) (ready : Bool) (s1 : State)
        (out : Option (List Nat)),
      mainLoop fuel s samples ready = some (s1, out) → s1.hit c = s.hit c) ∧
    (s.first_reported < 13 → c < 13 → ∀ inputs : List ((Nat → Int) × Bool),
      ∃ s1 outs, runLoop s inputs = some (s1, outs) ∧
        ((s1.new_hit c ≠ 0 ∧ s1.hit c = s.hit c) ∨
         ∃ (i : Nat) (buf : List Nat), outs[i]? = some (some buf) ∧
           carriesNoteOn buf (s.midi_code c) (s.hit c))) :=
  ⟨fun fuel samples ready s1 out h => (mainLoop_frame fuel s s1 samples ready out h).2 c hh,
   fun hf hc inputs => runLoop_frozen inputs s c hf hc hh⟩

/-- Witness for C11: channels 0, 1 and 2 have peaked and dropped; the hit of
channel 2 is pending through two ready passes. -/
theorem velocity_frozen_witness :
    (detectAll (detectAll init (fun x => if x < 3 then 100 else 0)) silence).new_hit 2 ≠ 0 ∧
    ∃ s1 outs,
      runLoop (detectAll (detectAll init (fun x => if x < 3 then 100 else 0)) silence)
        [(silence, true), (silence, true)] = some (s1, outs) ∧
      ((s1.new_hit 2 ≠ 0 ∧
        s1.hit 2 = (detectAll (detectAll init (fun x => if x < 3 then 100 else 0)) silence).hit 2) ∨
       ∃ (i : Nat) (buf : List Nat), outs[i]? = some (some buf) ∧
         carriesNoteOn buf
           ((detectAll (detectAll init (fun x => if x < 3 then 100 else 0)) silence).midi_code 2)
           ((detectAll (detectAll init (fun x => if x < 3 then 100 else 0)) silence).hit 2)) :=
  ⟨by decide,
    (velocity_frozen (detectAll (detectAll init (fun x => if x < 3 then 100 else 0)) silence) 2
      (by decide)).2 (by decide) (by decide) [(silence, true), (silence, true)]⟩

/-! ### Transport not ready -/

/-- C13: a pass in which the transport is not ready runs the detector pass
only: no buffer is submitted, the cursor and every timer are unchanged, and no
pending hit is cleared. -/
theorem not_ready_pass (s : State) (samples : Nat → Int) (fuel : Nat) :
    mainLoop fuel s samples false = some (detectAll s samples, none) ∧
    (detectAll s samples).first_reported = s.first_reported ∧
    (detectAll s samples).note_on = s.note_on ∧
    ∀ c, s.new_hit c ≠ 0 → (detectAll s samples).new_hit c ≠ 0 := by
  obtain ⟨e1, e2, _⟩ := detectAll_frame s samples
  exact ⟨by simp [mainLoop], e2, e1, fun c hc => (detectAll_pending s samples c hc).1⟩

/-- Witness for C13: the pending hit of channel 2 survives a pass without
readiness. -/
theorem not_ready_pass_witness :
    (detectAll (detectAll init (strike 2 100)) silence).new_hit 2 ≠ 0 ∧
    (detectAll (detectAll (detectAll init (strike 2 100)) silence) silence).new_hit 2 ≠ 0 :=
  ⟨by decide,
    (not_ready_pass (detectAll (detectAll init (strike 2 100)) silence) silence 13).2.2.2 2
      (by decide)⟩

/-! ### Sampler input selection -/

theorem adc_select_eq (REFS1 REFS0 ADLAR c : Nat) :
    adc_select REFS1 REFS0 ADLAR c
      = if c ≤ 4 then { PORTB := 0, ADMUX := c + 1 }
        else { PORTB := min c 12 - 5, ADMUX := 0 } := by
  unfold adc_select
  simp only [Nat.zero_shiftLeft, Nat.or_zero]
  by_cases h12 : c > 12
  · have h4 : ¬ c ≤ 4 := by omega
    simp [h12, h4]
    omega
  · by_cases h4 : c ≤ 4
    · have : ¬ c > 4 := by omega
      simp [h12, h4, this]
      omega
    · have : c > 4 := by omega
      simp [h12, h4, this]
      omega

/-- C14: for every 8-bit channel index `c`, `adc` selects (and so reads) the
same input as for `min c 12`; for `c <= 4` it selects input line `c + 1` with
multiplexer select 0, for `c >= 5` input line 0 with multiplexer select
`min c 12 - 5`, which is at most 7; distinct indices in 0..12 select distinct
pairs of input line and multiplexer select. -/
theorem adc_input_selection (REFS1 REFS0 ADLAR : Nat) :
    (∀ c, c < 256 →
      adc_select REFS1 REFS0 ADLAR c = adc_select REFS1 REFS0 ADLAR (min c 12) ∧
      (∀ convert : AdcPins → Int,
        adc convert REFS1 REFS0 ADLAR c = adc convert REFS1 REFS0 ADLAR (min c 12)) ∧
      (c ≤ 4 → (adc_select REFS1 REFS0 ADLAR c).ADMUX = c + 1 ∧
        (adc_select REFS1 REFS0 ADLAR c).PORTB = 0) ∧
      (5 ≤ c → (adc_select REFS1 REFS0 ADLAR c).ADMUX = 0 ∧
        (adc_select REFS1 REFS0 ADLAR c).PORTB = min c 12 - 5 ∧
        (adc_select REFS1 REFS0 ADLAR c).PORTB ≤ 7)) ∧
    (∀ a b, a ≤ 12 → b ≤ 12 → a ≠ b →
      ((adc_select REFS1 REFS0 ADLAR a).ADMUX, (adc_select REFS1 REFS0 ADLAR a).PORTB)
        ≠ ((adc_select REFS1 REFS0 ADLAR b).ADMUX, (adc_select REFS1 REFS0 ADLAR b).PORTB)) := by
  constructor
  · intro c _
    have hsel : adc_select REFS1 REFS0 ADLAR c = adc_select REFS1 REFS0 ADLAR (min c 12) := by
      rw [adc_select_eq, adc_select_eq]
      by_cases h4 : c ≤ 4
      · have h : min c 12 ≤ 4 := by omega
        simp [h4, h]
        omega
      · have h : ¬ min c 12 ≤ 4 := by omega
        simp [h4, h]
    refine ⟨hsel, fun convert => by unfold adc; rw [hsel], ?_, ?_⟩
    · intro h4
      rw [adc_select_eq, if_pos h4]
      exact ⟨rfl, rfl⟩
    · intro h5
      rw [adc_select_eq, if_neg (by omega)]
      exact ⟨rfl, rfl, by show min c 12 - 5 ≤ 7; omega⟩
  · intro a b ha hb hab h
    rw [adc_select_eq, adc_select_eq] at h
    by_cases h1 : a ≤ 4 <;> by_cases h2 : b ≤ 4 <;>
      simp only [h1, h2, if_true, if_false, Prod.mk.injEq] at h <;> omega

/-- Witness for C14: indices 3, 9 and 200. -/
theorem adc_input_selection_witness :
    (adc_select 7 6 5 3).ADMUX = 4 ∧ (adc_select 7 6 5 9).PORTB = 4 ∧
    adc_select 7 6 5 200 = adc_select 7 6 5 (min 200 12) ∧
    ((adc_select 7 6 5 3).ADMUX, (adc_select 7 6 5 3).PORTB)
      ≠ ((adc_select 7 6 5 9).ADMUX, (adc_select 7 6 5 9).PORTB) :=
  ⟨(((adc_input_selection 7 6 5).1 3 (by decide)).2.2.1 (by decide)).1,
    (((adc_input_selection 7 6 5).1 9 (by decide)).2.2.2 (by decide)).2.1,
    ((adc_input_selection 7 6 5).1 200 (by decide)).1,
    (adc_input_selection 7 6 5).2 3 9 (by decide) (by decide) (by decide)⟩

/-! ### Note assignment -/

/-- A buffer the scheduler block submits carries the note of one channel. -/
theorem schedule_shape (s s1 : State) (fuel : Nat) (buf : List Nat)
    (hf : s.first_reported < 13) (hfuel : 13 ≤ fuel)
    (h : schedule fuel s = some (s1, some buf)) :
    ∃ j < 13, (s.new_hit j ≠ 0 ∨ s.note_on j = 1) ∧
      (buf = [0x08, 0x80, s.midi_code j, 0x00] ∨
       buf = [0x09, 0x90, s.midi_code j, s.hit j] ∨
       buf = [0x08, 0x80, s.midi_code j, 0x00, 0x09, 0x90, s.midi_code j, s.hit j]) := by
  rcases first_stop s 13 with hall | ⟨d, hd, hp, hstop⟩
  · obtain ⟨s2, h1, _⟩ := schedule_idle s hf hall fuel hfuel
    rw [h1] at h
    simp at h
  · rcases not_passes _ _ hstop with hh | ⟨hh, hone⟩
    · obtain ⟨s2, h1, _⟩ := schedule_hit s hf d hd hp hh fuel hfuel
      rw [h1] at h
      have hb := (Prod.mk.inj (Option.some.inj h)).2
      refine ⟨_, cyc_lt _ _, Or.inl hh, ?_⟩
      by_cases h0 : s.note_on (cyc s.first_reported d) = 0
      · simp only [h0, ne_eq, not_true_eq_false, if_false, Option.some.injEq] at hb
        exact Or.inr (Or.inl hb.symm)
      · simp only [h0, ne_eq, not_false_eq_true, if_true, Option.some.injEq] at hb
        exact Or.inr (Or.inr hb.symm)
    · obtain ⟨s2, h1, _⟩ := schedule_off s hf d hd hp hh hone fuel hfuel
      rw [h1] at h
      have hb := (Prod.mk.inj (Option.some.inj h)).2
      simp only [Option.some.injEq] at hb
      exact ⟨_, cyc_lt _ _, Or.inr hone, Or.inl hb.symm⟩

/-- C20: the note table is injective on the 13 channels, is a permutation of
36..48 (so every entry is a 7-bit data byte), and no pass of the main loop
writes to it; hence in every reachable state different channels have
different notes, and a buffer the scheduler submits carries the note of one
channel and of no other. -/
theorem note_assignment :
    (∀ x c, x < 13 → c < 13 → init.midi_code x = init.midi_code c → x = c) ∧
    ((List.range NUM_OF_CHANS).map init.midi_code).Perm (List.range' 36 13) ∧
    (∀ i, i < 13 → init.midi_code i < 128) ∧
    (∀ (fuel : Nat) (s s1 : State) (samples : Nat → Int) (ready : Bool)
        (out : Option (List Nat)),
      mainLoop fuel s samples ready = some (s1, out) → s1.midi_code = s.midi_code) ∧
    (∀ s, Reachable s → s.midi_code = init.midi_code) ∧
    (∀ s, Reachable s → ∀ (samples : Nat → Int) (s1 : State) (buf : List Nat),
      mainLoop NUM_OF_CHANS s samples true = some (s1, some buf) →
      ∃ j < 13, buf.get? 2 = some (s.midi_code j) ∧
        (buf.length = 8 → buf.get? 6 = some (s.midi_code j)) ∧
        ∀ c < 13, c ≠ j → buf.get? 2 ≠ some (s.midi_code c) ∧
          buf.get? 6 ≠ some (s.midi_code c)) := by
  refine ⟨fun x c hx hc h => midi_code_injective x c hx hc h, by decide, ?_,
    fun fuel s s1 samples ready out h => (mainLoop_frame fuel s s1 samples ready out h).1,
    fun s hs => (reachable_cursor_lt s hs).2, ?_⟩
  · intro i hi
    interval_cases i <;> decide
  · intro s hs samples s1 buf hm
    obtain ⟨hf, hcode⟩ := reachable_cursor_lt s hs
    obtain ⟨_, e2, e3⟩ := detectAll_frame s samples
    rw [mainLoop_ready] at hm
    obtain ⟨j, hj, _, hshape⟩ := schedule_shape (detectAll s samples) s1 NUM_OF_CHANS buf
      (by rw [e2]; exact hf) (le_refl _) hm
    rw [e3] at hshape
    have hne : ∀ c < 13, c ≠ j → s.midi_code j ≠ s.midi_code c := by
      intro c hc hcj h
      rw [hcode] at h
      exact hcj (midi_code_injective j c hj hc h).symm
    refine ⟨j, hj, ?_, ?_, ?_⟩
    · rcases hshape with h | h | h <;> rw [h] <;> rfl
    · intro hlen
      rcases hshape with h | h | h <;> rw [h] at hlen ⊢ <;> first | rfl | simp at hlen
    · intro c hc hcj
      have := hne c hc hcj
      rcases hshape with h | h | h <;> rw [h] <;> simp [this]

/-- Witness for C20: the pass that sends the note-on of channel 2 (note 36). -/
theorem note_assignment_witness :
    init.midi_code 2 < 128 ∧ (init.midi_code 2 = init.midi_code 2 → 2 = 2) ∧
    (detectAll init (strike 2 100)).midi_code = init.midi_code :=
  ⟨note_assignment.2.2.1 2 (by decide),
    note_assignment.1 2 2 (by decide) (by decide),
    note_assignment.2.2.2.2.1 _
      (Reachable.pass init _ (strike 2 100) false none Reachable.start (by simp [mainLoop]))⟩

/-! ### The selection rule of the scheduler -/

/-- The scheduler block when the scan stops at scan position `d`. -/
theorem schedule_stop_effect (s : State) (fuel d : Nat) (hf : s.first_reported < 13)
    (hfuel : 13 ≤ fuel) (hd : d < 13)
    (hp : ∀ j < d, passes s (cyc s.first_reported j))
    (hstop : s.new_hit (cyc s.first_reported d) ≠ 0 ∨ s.note_on (cyc s.first_reported d) = 1) :
    ∃ s1 buf, schedule fuel s = some (s1, some buf) ∧
      (buf = [0x08, 0x80, s.midi_code (cyc s.first_reported d), 0x00] ∨
        carriesNoteOn buf (s.midi_code (cyc s.first_reported d))
          (s.hit (cyc s.first_reported d))) ∧
      (s.new_hit (cyc s.first_reported d) ≠ 0 →
        carriesNoteOn buf (s.midi_code (cyc s.first_reported d))
          (s.hit (cyc s.first_reported d)) ∧
        s1.new_hit (cyc s.first_reported d) = 0 ∧ s1.note_on (cyc s.first_reported d) = 30) ∧
      (s.new_hit (cyc s.first_reported d) = 0 →
        buf = [0x08, 0x80, s.midi_code (cyc s.first_reported d), 0x00] ∧
        s1.new_hit (cyc s.first_reported d) = 0 ∧ s1.note_on (cyc s.first_reported d) = 0) ∧
      (∀ k < d, s1.note_on (cyc s.first_reported k) = s.note_on (cyc s.first_reported k) - 1 ∧
        s1.new_hit (cyc s.first_reported k) = s.new_hit (cyc s.first_reported k)) ∧
      (∀ k, d < k → k < 13 →
        s1.note_on (cyc s.first_reported k) = s.note_on (cyc s.first_reported k) ∧
        s1.new_hit (cyc s.first_reported k) = s.new_hit (cyc s.first_reported k)) ∧
      s1.first_reported = (cyc s.first_reported d + 1) % 13 := by
  have hupd : ∀ (v : Nat) (j : Nat), j < 13 → j ≠ d →
      upd (skipped s d).note_on (cyc s.first_reported d) v (cyc s.first_reported j)
        = if j < d then s.note_on (cyc s.first_reported j) - 1
          else s.note_on (cyc s.first_reported j) := by
    intro v j hj hne
    have : cyc s.first_reported j ≠ cyc s.first_reported d :=
      fun h => hne (cyc_inj _ _ _ hj hd h)
    simp only [upd, this, if_false]
    exact skipped_note_on_cyc s hf d j hj
  have hcne : ∀ j, j < 13 → j ≠ d → cyc s.first_reported j ≠ cyc s.first_reported d :=
    fun j hj hne h => hne (cyc_inj _ _ _ hj hd h)
  by_cases hh : s.new_hit (cyc s.first_reported d) ≠ 0
  · obtain ⟨s1, h1, h2, h3, h4, _⟩ := schedule_hit s hf d hd hp hh fuel hfuel
    have hcarry : carriesNoteOn
        (if s.note_on (cyc s.first_reported d) ≠ 0 then
          [0x08, 0x80, s.midi_code (cyc s.first_reported d), 0x00,
           0x09, 0x90, s.midi_code (cyc s.first_reported d), s.hit (cyc s.first_reported d)]
         else [0x09, 0x90, s.midi_code (cyc s.first_reported d),
               s.hit (cyc s.first_reported d)])
        (s.midi_code (cyc s.first_reported d)) (s.hit (cyc s.first_reported d)) := by
      unfold carriesNoteOn
      by_cases h0 : s.note_on (cyc s.first_reported d) = 0
      · left; simp [h0]
      · right; simp [h0]
    refine ⟨s1, _, h1, Or.inr hcarry, fun _ => ⟨hcarry, by rw [h3]; simp [upd],
      by rw [h4]; simp [upd]⟩, fun h0 => absurd h0 hh, ?_, ?_, h2⟩
    · intro k hk
      rw [h4, hupd 30 k (by omega) (by omega), if_pos hk, h3]
      simp [upd, hcne k (by omega) (by omega)]
    · intro k hk hk13
      rw [h4, hupd 30 k hk13 (by omega), if_neg (by omega), h3]
      simp [upd, hcne k hk13 (by omega)]
  · have hz : s.new_hit (cyc s.first_reported d) = 0 := not_not.mp hh
    have hone : s.note_on (cyc s.first_reported d) = 1 := by
      rcases hstop with h | h
      · exact absurd h hh
      · exact h
    obtain ⟨s1, h1, h2, h3, h4, _⟩ := schedule_off s hf d hd hp hz hone fuel hfuel
    refine ⟨s1, _, h1, Or.inl rfl, fun h0 => absurd h0 hh,
      fun _ => ⟨rfl, by rw [h3]; exact hz, by rw [h4]; simp [upd]⟩, ?_, ?_, h2⟩
    · intro k hk
      rw [h4, hupd 0 k (by omega) (by omega), if_pos hk, h3]
      exact ⟨rfl, rfl⟩
    · intro k hk hk13
      rw [h4, hupd 0 k hk13 (by omega), if_neg (by omega), h3]
      exact ⟨rfl, rfl⟩

/-- C15: on a ready pass with the cursor below 13, let `j` be the first channel
in scan order from the cursor that has a pending hit or whose timer is 1.  If
`j` exists (at scan position `d`), the buffer of the pass is that of `j` (its
note-on, after its note-off when its timer was running, if its hit is pending;
its note-off otherwise), every channel scanned before `j` has its timer
decremented when it is running, every channel after `j` is unchanged, and the
cursor is `(j + 1) mod 13`.  If no channel qualifies, nothing is sent, the
cursor stays and every running timer is decremented by one. -/
theorem selection_rule (s : State) (samples : Nat → Int) (fuel : Nat)
    (hf : s.first_reported < 13) (hfuel : 13 ≤ fuel) :
    (∀ d < 13,
      (∀ k < d, (detectAll s samples).new_hit (cyc s.first_reported k) = 0 ∧
        s.note_on (cyc s.first_reported k) ≠ 1) →
      ((detectAll s samples).new_hit (cyc s.first_reported d) ≠ 0 ∨
        s.note_on (cyc s.first_reported d) = 1) →
      ∃ s1 buf, mainLoop fuel s samples true = some (s1, some buf) ∧
        ((detectAll s samples).new_hit (cyc s.first_reported d) ≠ 0 →
          carriesNoteOn buf (s.midi_code (cyc s.first_reported d))
            ((detectAll s samples).hit (cyc s.first_reported d)) ∧
          s1.new_hit (cyc s.first_reported d) = 0 ∧
          s1.note_on (cyc s.first_reported d) = 30) ∧
        ((detectAll s samples).new_hit (cyc s.first_reported d) = 0 →
          buf = [0x08, 0x80, s.midi_code (cyc s.first_reported d), 0x00] ∧
          s1.new_hit (cyc s.first_reported d) = 0 ∧
          s1.note_on (cyc s.first_reported d) = 0) ∧
        (∀ k < d,
          s1.note_on (cyc s.first_reported k) = s.note_on (cyc s.first_reported k) - 1 ∧
          s1.new_hit (cyc s.first_reported k)
            = (detectAll s samples).new_hit (cyc s.first_reported k)) ∧
        (∀ k, d < k → k < 13 →
          s1.note_on (cyc s.first_reported k) = s.note_on (cyc s.first_reported k) ∧
          s1.new_hit (cyc s.first_reported k)
            = (detectAll s samples).new_hit (cyc s.first_reported k)) ∧
        s1.first_reported = (cyc s.first_reported d + 1) % 13) ∧
    ((∀ k < 13, (detectAll s samples).new_hit (cyc s.first_reported k) = 0 ∧
        s.note_on (cyc s.first_reported k) ≠ 1) →
      ∃ s1, mainLoop fuel s samples true = some (s1, none) ∧
        s1.first_reported = s.first_reported ∧
        ∀ x < 13, s1.note_on x = s.note_on x - 1 ∧
          s1.new_hit x = (detectAll s samples).new_hit x) := by
  obtain ⟨e1, e2, e3⟩ := detectAll_frame s samples
  have hf2 : (detectAll s samples).first_reported < 13 := by rw [e2]; exact hf
  constructor
  · intro d hd hp hstop
    obtain ⟨s1, buf, h1, _, h3, h4, h5, h6, h7⟩ :=
      schedule_stop_effect (detectAll s samples) fuel d hf2 hfuel hd
        (fun j hj => by unfold passes; rw [e1, e2]; exact hp j hj)
        (by rw [e1, e2]; exact hstop)
    rw [e2, e3] at h3 h4
    rw [e1, e2] at h5 h6
    rw [e2] at h7
    exact ⟨s1, buf, by rw [mainLoop_ready]; exact h1, h3, h4, h5, h6, h7⟩
  · intro hall
    obtain ⟨s1, h1, h2, h3, h4, _⟩ :=
      schedule_idle (detectAll s samples) hf2
        (fun j hj => by unfold passes; rw [e1, e2]; exact hall j hj) fuel hfuel
    refine ⟨s1, by rw [mainLoop_ready]; exact h1, by rw [h2, e2], ?_⟩
    intro x hx
    have h := skipped_note_on_cyc (detectAll s samples) hf2 13 _
      (dist_lt (detectAll s samples).first_reported x)
    rw [cyc_dist _ x hf2 hx, if_pos (dist_lt _ x), e1] at h
    exact ⟨by rw [h4, h], by rw [h3]⟩

/-- Witness for C15: channel 2 is the first to qualify, by its pending hit,
when the cursor is 0. -/
theorem selection_rule_witness :
    (detectAll init (strike 2 100)).first_reported < 13 ∧
    ∃ s1 buf, mainLoop 13 (detectAll init (strike 2 100)) silence true = some (s1, some buf) ∧
      s1.first_reported = (cyc (detectAll init (strike 2 100)).first_reported 2 + 1) % 13 :=
  ⟨by decide,
    ((selection_rule (detectAll init (strike 2 100)) silence 13 (by decide) (by decide)).1 2
      (by decide) (by decide) (by decide)).elim
      (fun s1 h => h.elim (fun buf hb => ⟨s1, buf, hb.1, hb.2.2.2.2.2⟩))⟩

/-! ### No note-on with velocity 0 -/

/-- The velocity stored for a peak above the threshold is in 1..127. -/
theorem velocity_range (p : Int) (hp : 10 < p) : 1 ≤ velocity p ∧ velocity p ≤ 127 := by
  have h := velocity_eq_min p (by omega)
  rw [shiftRight_div] at h
  norm_num at h
  omega

/-- A detector step keeps the velocity of every pending hit in 1..127. -/
theorem detect_velocity_ok (s : State) (chn : Nat) (val : Int)
    (h : ∀ c, s.new_hit c ≠ 0 → 1 ≤ s.hit c ∧ s.hit c ≤ 127) :
    ∀ c, (detect s chn val).new_hit c ≠ 0 →
      1 ≤ (detect s chn val).hit c ∧ (detect s chn val).hit c ≤ 127 := by
  intro c hc
  by_cases hcc : c = chn
  · subst hcc
    by_cases hst : s.stage c = 1
    · obtain ⟨_, _, _, _, k5, k6⟩ := detect_stage1 s c val hst
      rw [k5] at hc
      rw [k6]
      exact h c hc
    · have hv : (detect s c val).hit c = s.hit c ∧ (detect s c val).new_hit c = s.new_hit c ∨
          (detect s c val).hit c = velocity ((detect s c val).vmax c) ∧
            10 < (detect s c val).vmax c := by
        unfold detect
        simp only [hst, high_treshold, if_false]
        split_ifs <;> simp_all [upd]
      rcases hv with ⟨k1, k2⟩ | ⟨k1, k2⟩
      · rw [k2] at hc
        rw [k1]
        exact h c hc
      · rw [k1]
        exact velocity_range _ k2
  · obtain ⟨k1, k2, _, _⟩ := detect_other s chn c val hcc
    rw [k1] at hc
    rw [k2]
    exact h c hc

/-- A pass of the main loop keeps the velocity of every pending hit in
1..127. -/
theorem mainLoop_velocity_ok (fuel : Nat) (s s1 : State) (samples : Nat → Int) (ready : Bool)
    (out : Option (List Nat)) (hm : mainLoop fuel s samples ready = some (s1, out))
    (h : ∀ c, s.new_hit c ≠ 0 → 1 ≤ s.hit c ∧ s.hit c ≤ 127) :
    ∀ c, s1.new_hit c ≠ 0 → 1 ≤ s1.hit c ∧ s1.hit c ≤ 127 := by
  have hd : ∀ c, (detectAll s samples).new_hit c ≠ 0 →
      1 ≤ (detectAll s samples).hit c ∧ (detectAll s samples).hit c ≤ 127 :=
    detectAll_induct (fun t => ∀ c, t.new_hit c ≠ 0 → 1 ≤ t.hit c ∧ t.hit c ≤ 127)
      (fun t chn val ht => detect_velocity_ok t chn val ht) s samples h
  cases ready with
  | false =>
    simp only [mainLoop, Bool.false_eq_true, if_false, Option.some.injEq, Prod.mk.injEq] at hm
    obtain ⟨rfl, _⟩ := hm
    exact hd
  | true =>
    rw [mainLoop_ready] at hm
    obtain ⟨k1, _, _, _, k5⟩ := schedule_frame fuel _ s1 out hm
    intro c hc
    rw [k1]
    exact hd c (k5 c hc)

/-- In every reachable state a pending hit has its velocity in 1..127. -/
theorem reachable_velocity_ok (s : State) (h : Reachable s) :
    ∀ c, s.new_hit c ≠ 0 → 1 ≤ s.hit c ∧ s.hit c ≤ 127 := by
  induction h with
  | start => intro c hc; exact absurd rfl hc
  | pass s s1 samples ready out _ hstep ih =>
    exact mainLoop_velocity_ok _ s s1 samples ready out hstep ih

/-- A note-on the scheduler block sends is that of a channel whose hit was
pending, with the velocity stored for it. -/
theorem schedule_note_on (s s1 : State) (fuel : Nat) (buf : List Nat) (note vel : Nat)
    (hf : s.first_reported < 13) (hfuel : 13 ≤ fuel)
    (h : schedule fuel s = some (s1, some buf)) (hc : carriesNoteOn buf note vel) :
    ∃ j < 13, s.new_hit j ≠ 0 ∧ vel = s.hit j ∧ note = s.midi_code j := by
  rcases first_stop s 13 with hall | ⟨d, hd, hp, hstop⟩
  · obtain ⟨s2, h1, _⟩ := schedule_idle s hf hall fuel hfuel
    rw [h1] at h
    simp at h
  · rcases not_passes _ _ hstop with hh | ⟨hh, hone⟩
    · obtain ⟨s2, h1, _⟩ := schedule_hit s hf d hd hp hh fuel hfuel
      rw [h1] at h
      have hb := (Prod.mk.inj (Option.some.inj h)).2
      refine ⟨_, cyc_lt _ _, hh, ?_⟩
      unfold carriesNoteOn at hc
      by_cases h0 : s.note_on (cyc s.first_reported d) = 0
      · simp only [h0, ne_eq, not_true_eq_false, if_false, Option.some.injEq] at hb
        subst hb
        rcases hc with hc | hc <;> simp at hc
        constructor <;> omega
      · simp only [h0, ne_eq, not_false_eq_true, if_true, Option.some.injEq] at hb
        subst hb
        rcases hc with hc | hc <;> simp at hc
        constructor <;> omega
    · obtain ⟨s2, h1, _⟩ := schedule_off s hf d hd hp hh hone fuel hfuel
      rw [h1] at h
      have hb := (Prod.mk.inj (Option.some.inj h)).2
      simp only [Option.some.injEq] at hb
      subst hb
      unfold carriesNoteOn at hc
      rcases hc with hc | hc <;> simp at hc

/-- The detector pass preserves what each of its steps preserves for the
reading of its channel. -/
theorem detectAll_induct_on (P : State → Prop) (samples : Nat → Int)
    (hP : ∀ (s : State) (chn : Nat), P s → P (detect s chn (samples chn)))
    (s : State) (h : P s) : P (detectAll s samples) := by
  unfold detectAll
  generalize List.range NUM_OF_CHANS = l
  induction l generalizing s with
  | nil => exact h
  | cons c l ih => exact ih _ (hP s c h)

/-- After a detector step the peak of the channel is the old peak or the
sample. -/
theorem detect_vmax_cases (s : State) (chn : Nat) (val : Int) :
    (detect s chn val).vmax chn = s.vmax chn ∨ (detect s chn val).vmax chn = val := by
  unfold detect
  dsimp only
  repeat' split
  all_goals simp [upd]

/-- Peaks stay within the range of the converter. -/
theorem detect_bounded (s : State) (chn : Nat) (val : Int)
    (hb : ∀ c, 0 ≤ s.vmax c ∧ s.vmax c ≤ 1023) (h0 : 0 ≤ val) (h1 : val ≤ 1023) :
    ∀ c, 0 ≤ (detect s chn val).vmax c ∧ (detect s chn val).vmax c ≤ 1023 := by
  intro c
  by_cases hc : c = chn
  · subst hc
    rcases detect_vmax_cases s c val with h | h <;> rw [h]
    · exact hb c
    · exact ⟨h0, h1⟩
  · rw [(detect_other s chn c val hc).2.2.2]
    exact hb c

/-- A pass of the main loop fed readings in 0..1023 keeps the peaks in
0..1023. -/
theorem mainLoop_bounded (fuel : Nat) (s s1 : State) (samples : Nat → Int) (ready : Bool)
    (out : Option (List Nat)) (hm : mainLoop fuel s samples ready = some (s1, out))
    (hs : ∀ chn, 0 ≤ samples chn ∧ samples chn ≤ 1023)
    (hb : ∀ c, 0 ≤ s.vmax c ∧ s.vmax c ≤ 1023) :
    ∀ c, 0 ≤ s1.vmax c ∧ s1.vmax c ≤ 1023 := by
  have hd : ∀ c, 0 ≤ (detectAll s samples).vmax c ∧ (detectAll s samples).vmax c ≤ 1023 :=
    detectAll_induct_on (fun t => ∀ c, 0 ≤ t.vmax c ∧ t.vmax c ≤ 1023) samples
      (fun t chn ht => detect_bounded t chn (samples chn) ht (hs chn).1 (hs chn).2) s hb
  cases ready with
  | false =>
    simp only [mainLoop, Bool.false_eq_true, if_false, Option.some.injEq, Prod.mk.injEq] at hm
    obtain ⟨rfl, _⟩ := hm
    exact hd
  | true =>
    rw [mainLoop_ready] at hm
    obtain ⟨_, _, _, k4, _⟩ := schedule_frame fuel _ s1 out hm
    rw [k4]
    exact hd

/-- A run of the main loop fed readings in 0..1023 keeps the peaks in
0..1023. -/
theorem runLoop_bounded (inputs : List ((Nat → Int) × Bool)) (s s1 : State)
    (outs : List (Option (List Nat)))
    (hs : ∀ p ∈ inputs, ∀ chn, 0 ≤ p.1 chn ∧ p.1 chn ≤ 1023)
    (hb : ∀ c, 0 ≤ s.vmax c ∧ s.vmax c ≤ 1023)
    (hrun : runLoop s inputs = some (s1, outs)) :
    ∀ c, 0 ≤ s1.vmax c ∧ s1.vmax c ≤ 1023 := by
  induction inputs generalizing s outs with
  | nil =>
    simp only [runLoop, Option.some.injEq, Prod.mk.injEq] at hrun
    rw [← hrun.1]
    exact hb
  | cons p ps ih =>
    rw [runLoop] at hrun
    cases hm : mainLoop NUM_OF_CHANS s p.1 p.2 with
    | none => simp [hm] at hrun
    | some r =>
      obtain ⟨s2, out⟩ := r
      have hb2 := mainLoop_bounded _ s s2 p.1 p.2 out hm (hs p (by simp)) hb
      cases hr : runLoop s2 ps with
      | none => simp [hm, hr] at hrun
      | some r2 =>
        obtain ⟨s3, outs3⟩ := r2
        simp only [hm, hr, Option.some.injEq, Prod.mk.injEq] at hrun
        obtain ⟨rfl, _⟩ := hrun
        exact ih s2 outs3 (fun q hq => hs q (List.mem_cons_of_mem _ hq)) hb2 hr

/-- C17: in every reachable state a pending hit has its velocity in 1..127;
hence every note-on the scheduler sends carries a velocity byte in 1..127;
and when the readings are in 0..1023 the peaks stay in 0..1023, so that the
test `(vmax[chn]>>3) > 127` of the saturation branch is false at every
detector step. -/
theorem no_zero_velocity :
    (∀ s, Reachable s → ∀ c, s.new_hit c ≠ 0 → 1 ≤ s.hit c ∧ s.hit c ≤ 127) ∧
    (∀ s, Reachable s → ∀ (samples : Nat → Int) (s1 : State) (buf : List Nat)
        (note vel : Nat),
      mainLoop NUM_OF_CHANS s samples true = some (s1, some buf) →
      carriesNoteOn buf note vel → 1 ≤ vel ∧ vel ≤ 127) ∧
    (∀ (inputs : List ((Nat → Int) × Bool)) (s : State) (outs : List (Option (List Nat))),
      (∀ p ∈ inputs, ∀ chn, 0 ≤ p.1 chn ∧ p.1 chn ≤ 1023) →
      runLoop init inputs = some (s, outs) → ∀ c, 0 ≤ s.vmax c ∧ s.vmax c ≤ 1023) ∧
    (∀ (s : State) (chn : Nat) (val : Int),
      (∀ c, 0 ≤ s.vmax c ∧ s.vmax c ≤ 1023) → 0 ≤ val → val ≤ 1023 →
      (∀ c, 0 ≤ (detect s chn val).vmax c ∧ (detect s chn val).vmax c ≤ 1023) ∧
      ¬ (((detect s chn val).vmax chn).shiftRight 3 > 127)) := by
  refine ⟨reachable_velocity_ok, ?_, ?_, ?_⟩
  · intro s hs samples s1 buf note vel hm hc
    have hf := (reachable_cursor_lt s hs).1
    obtain ⟨_, e2, _⟩ := detectAll_frame s samples
    have hok : ∀ c, (detectAll s samples).new_hit c ≠ 0 →
        1 ≤ (detectAll s samples).hit c ∧ (detectAll s samples).hit c ≤ 127 :=
      detectAll_induct (fun t => ∀ c, t.new_hit c ≠ 0 → 1 ≤ t.hit c ∧ t.hit c ≤ 127)
        (fun t chn val ht => detect_velocity_ok t chn val ht) s samples
        (reachable_velocity_ok s hs)
    rw [mainLoop_ready] at hm
    obtain ⟨j, _, hj, hv, _⟩ := schedule_note_on (detectAll s samples) s1 NUM_OF_CHANS buf
      note vel (by rw [e2]; exact hf) (le_refl _) hm hc
    rw [hv]
    exact hok j hj
  · intro inputs s outs hs hrun
    exact runLoop_bounded inputs init s outs hs
      (fun _ => ⟨le_refl (0 : Int), by show (0 : Int) ≤ 1023; decide⟩) hrun
  · intro s chn val hb h0 h1
    have hb2 := detect_bounded s chn val hb h0 h1
    refine ⟨hb2, ?_⟩
    have := (hb2 chn).2
    rw [shiftRight_div]
    norm_num
    omega

/-- Witness for C17: the pending hit of channel 2 after a peak of 1016. -/
theorem no_zero_velocity_witness :
    (detectAll (detectAll init (strike 2 1016)) silence).new_hit 2 ≠ 0 ∧
    1 ≤ (detectAll (detectAll init (strike 2 1016)) silence).hit 2 ∧
    (detectAll (detectAll init (strike 2 1016)) silence).hit 2 ≤ 127 :=
  ⟨by decide,
    no_zero_velocity.1 _
      (Reachable.pass (detectAll init (strike 2 1016))
        (detectAll (detectAll init (strike 2 1016)) silence) silence false none
        (Reachable.pass init (detectAll init (strike 2 1016)) (strike 2 1016) false none
          Reachable.start (by simp [mainLoop]))
        (by simp [mainLoop])) 2 (by decide)⟩

/-! ### Termination of the scan -/

/-- The channels examined while the scan passes over `k < 13` channels. -/
theorem scanChannels_skip (s : State) (hf : s.first_reported < 13)
    (hi : s.i1 = s.first_reported) (k : Nat) (hk : k < 13)
    (hp : ∀ j < k, passes s (cyc s.first_reported j)) (n : Nat) :
    scanChannels (n + k) s
      = (List.range k).map (cyc s.first_reported) ++ scanChannels n (skipped s k) := by
  induction k generalizing n with
  | zero =>
    have : skipped s 0 = s := by
      apply State.ext <;> simp [skipped, cyc, NUM_OF_CHANS, hi]
      omega
    simp [this]
  | succ k ih =>
    have hk2 : k < 13 := by omega
    rw [show n + (k + 1) = (n + 1) + k by omega, ih hk2 (fun j hj => hp j (by omega))]
    have hpass := skipped_passes s hf k hk2 (hp k (by omega))
    rw [scanChannels, loopBody_pass _ (cyc_lt _ _) hpass]
    have hne : ¬ ((skipped s k).i1 + 1) % 13 = (skipped s k).first_reported := by
      simp only [skipped, cyc, NUM_OF_CHANS]
      omega
    simp only [hne, decide_False, Bool.false_eq_true, if_false]
    rw [skipped_succ s hf k hk2, List.range_succ, List.map_append, List.append_assoc]
    rfl

/-- Fewer iterations than channels passed over do not end the scan. -/
theorem scanLoop_short (s : State) (hf : s.first_reported < 13)
    (hi : s.i1 = s.first_reported) (k : Nat) (hk : k < 13)
    (hp : ∀ j < k, passes s (cyc s.first_reported j)) :
    scanLoop k s = none := by
  have h := scanLoop_skip s hf hi k hk hp 0
  rw [Nat.zero_add] at h
  rw [h]
  rfl

theorem cyc_range_nodup (f n : Nat) (hn : n ≤ 13) :
    ((List.range n).map (cyc f)).Nodup := by
  apply List.Nodup.map_on _ (List.nodup_range n)
  intro a ha b hb hab
  rw [List.mem_range] at ha hb
  exact cyc_inj f a b (by omega) (by omega) hab

/-- C19: with the cursor below 13 the scan ends after `n` iterations, with
`1 <= n <= 13`: it has not ended before, more fuel changes nothing, the
channels it examines are the first `n` channels in scan order from the cursor,
each once, and it ends by servicing a channel (a buffer is filled) or, after
13 iterations, by wrapping back to the cursor. -/
theorem scan_terminates (s : State) (hf : s.first_reported < 13) :
    ∃ n s1, 1 ≤ n ∧ n ≤ 13 ∧
      (∀ fuel, n ≤ fuel →
        scanLoop fuel (scanEntry s) = some s1 ∧
        scanChannels fuel (scanEntry s) = (List.range n).map (cyc s.first_reported)) ∧
      (∀ fuel, fuel < n → scanLoop fuel (scanEntry s) = none) ∧
      ((List.range n).map (cyc s.first_reported)).Nodup ∧
      (s1.iii ≠ 0 ∨ (n = 13 ∧ s1.iii = 0 ∧ s1.i1 = s.first_reported)) := by
  have hE : (scanEntry s).first_reported = s.first_reported := rfl
  rcases first_stop s 13 with hall | ⟨d, hd, hp, hstop⟩
  · refine ⟨13, skipped (scanEntry s) 13, by omega, le_refl _, ?_, ?_,
      cyc_range_nodup _ 13 (le_refl _), Or.inr ⟨rfl, rfl, ?_⟩⟩
    · intro fuel hfuel
      constructor
      · rw [show fuel = (fuel - 13) + 13 by omega]
        exact scanLoop_idle (scanEntry s) hf rfl hall _
      · rw [show fuel = (fuel - 13 + 1) + 12 by omega,
          scanChannels_skip (scanEntry s) hf rfl 12 (by omega) (fun j hj => hall j (by omega))]
        have hpass := skipped_passes (scanEntry s) hf 12 (by omega) (hall 12 (by omega))
        rw [scanChannels, loopBody_pass _ (cyc_lt _ _) hpass]
        have he : ((skipped (scanEntry s) 12).i1 + 1) % 13
            = (skipped (scanEntry s) 12).first_reported := by
          simp only [skipped, cyc, NUM_OF_CHANS]
          omega
        simp only [he, decide_True, if_true]
        rw [hE, show (13 : Nat) = 12 + 1 by rfl, List.range_succ, List.map_append]
        rfl
    · intro fuel hfuel
      exact scanLoop_short (scanEntry s) hf rfl fuel (by omega) (fun j hj => hall j (by omega))
    · show cyc s.first_reported 13 = s.first_reported
      unfold cyc NUM_OF_CHANS
      omega
  · have hbreak : (loopBody (skipped (scanEntry s) d)).2 = true ∧
        (loopBody (skipped (scanEntry s) d)).1.iii ≠ 0 := by
      rcases not_passes _ _ hstop with hh | ⟨hh, hone⟩
      · obtain ⟨k1, _, _, _, k5, _⟩ :=
          loopBody_hit (skipped (scanEntry s) d) (cyc_lt _ _) hh rfl
        exact ⟨k1, k5⟩
      · obtain ⟨k1, _, _, _, k5, _⟩ :=
          loopBody_off (skipped (scanEntry s) d) (cyc_lt _ _) hh
            ((skipped_note_on_at s d hf hd).trans hone) rfl
        exact ⟨k1, k5⟩
    refine ⟨d + 1, (loopBody (skipped (scanEntry s) d)).1, by omega, by omega, ?_, ?_,
      cyc_range_nodup _ (d + 1) (by omega), Or.inl hbreak.2⟩
    · intro fuel hfuel
      constructor
      · rw [show fuel = (fuel - d - 1 + 1) + d by omega,
          scanLoop_skip (scanEntry s) hf rfl d hd hp, scanLoop]
        simp only [hbreak.1, if_true]
      · rw [show fuel = (fuel - d - 1 + 1) + d by omega,
          scanChannels_skip (scanEntry s) hf rfl d hd hp, scanChannels]
        simp only [hbreak.1, if_true]
        rw [hE, List.range_succ, List.map_append]
        rfl
    · intro fuel hfuel
      exact scanLoop_short (scanEntry s) hf rfl fuel (by omega) (fun j hj => hp j (by omega))

/-- Witness for C19: the scan that finds the pending hit of channel 2 in its
third iteration. -/
theorem scan_terminates_witness :
    (detectAll (detectAll init (strike 2 100)) silence).first_reported < 13 ∧
    scanChannels 13 (scanEntry (detectAll (detectAll init (strike 2 100)) silence)) = [0, 1, 2] ∧
    ∃ n s1, 1 ≤ n ∧ n ≤ 13 ∧
      (∀ fuel, n ≤ fuel →
        scanLoop fuel (scanEntry (detectAll (detectAll init (strike 2 100)) silence))
          = some s1 ∧
        scanChannels fuel (scanEntry (detectAll (detectAll init (strike 2 100)) silence))
          = (List.range n).map
              (cyc (detectAll (detectAll init (strike 2 100)) silence).first_reported)) :=
  ⟨by decide, by decide,
    (scan_terminates (detectAll (detectAll init (strike 2 100)) silence) (by decide)).elim
      (fun n h => h.elim (fun s1 hs => ⟨n, s1, hs.1, hs.2.1, hs.2.2.1⟩))⟩

/-! ### Index safety -/

/-- Without its logs `loopBodyLog` is `loopBody`. -/
theorem loopBodyLog_fst (s : State) : (loopBodyLog s).1 = loopBody s := by
  unfold loopBodyLog loopBody
  dsimp only
  repeat' split
  all_goals simp_all [puts]

/-- Without its logs `scanLoopLog` is `scanLoop`. -/
theorem scanLoopLog_fst (fuel : Nat) (s : State) :
    (scanLoopLog fuel s).map (fun r => r.1) = scanLoop fuel s := by
  induction fuel generalizing s with
  | zero => rfl
  | succ n ih =>
    rw [scanLoopLog, scanLoop, loopBodyLog_fst]
    by_cases hb : (loopBody s).2 = true
    · simp [hb]
    · simp only [hb, Bool.false_eq_true, if_false]
      rw [← ih]
      cases scanLoopLog n (loopBody s).1 <;> rfl

/-- An iteration entered with `i1 < 13` and an empty buffer uses subscripts
below 13 only, writes `midiMsg` at positions up to 7 only, leaves at most 8
bytes in the buffer, and, when it does not leave the loop, hands `i1 < 13` and
an empty buffer to the next iteration. -/
theorem loopBodyLog_safe (s : State) (hi : s.i1 < 13) (h0 : s.iii = 0) :
    (∀ i ∈ (loopBodyLog s).2.1, i < 13) ∧ (∀ p ∈ (loopBodyLog s).2.2, p ≤ 7) ∧
    (loopBody s).1.iii ≤ 8 ∧ (loopBody s).1.i1 < 13 ∧
    ((loopBody s).2 = false → (loopBody s).1.iii = 0) := by
  have hnext : (if (s.i1 + 1) % 256 ≥ NUM_OF_CHANS then 0 else (s.i1 + 1) % 256) < 13 := by
    unfold NUM_OF_CHANS
    split_ifs <;> omega
  unfold loopBodyLog loopBody loopTail
  dsimp only
  repeat' split
  all_goals simp_all [puts, put, next_i1, upd]

/-- A scan entered with `i1 < 13` and an empty buffer is safe in all its
iterations. -/
theorem scanLoopLog_safe (fuel : Nat) (s : State) (r : State × (List Nat × List Nat))
    (hi : s.i1 < 13) (h0 : s.iii = 0) (h : scanLoopLog fuel s = some r) :
    (∀ i ∈ r.2.1, i < 13) ∧ (∀ p ∈ r.2.2, p ≤ 7) ∧ r.1.iii ≤ 8 ∧ r.1.i1 < 13 := by
  induction fuel generalizing s r with
  | zero => simp [scanLoopLog] at h
  | succ n ih =>
    obtain ⟨k1, k2, k3, k4, k5⟩ := loopBodyLog_safe s hi h0
    have hfst := loopBodyLog_fst s
    rw [scanLoopLog] at h
    by_cases hb : (loopBodyLog s).1.2 = true
    · simp only [hb, if_true, Option.some.injEq] at h
      subst h
      rw [hfst]
      exact ⟨k1, k2, k3, k4⟩
    · simp only [hb, Bool.false_eq_true, if_false] at h
      have hb2 : (loopBody s).2 = false := by
        rw [← hfst]
        exact Bool.eq_false_iff.mpr hb
      cases ht : scanLoopLog n (loopBodyLog s).1.1 with
      | none => simp [ht] at h
      | some t =>
        simp only [ht, Option.some.injEq] at h
        subst h
        obtain ⟨j1, j2, j3, j4⟩ := ih (loopBodyLog s).1.1 t (by rw [hfst]; exact k4)
          (by rw [hfst]; exact k5 hb2) ht
        refine ⟨?_, ?_, j3, j4⟩
        · intro i hmem
          rcases List.mem_append.mp hmem with hm | hm
          · exact k1 i hm
          · exact j1 i hm
        · intro p hmem
          rcases List.mem_append.mp hmem with hm | hm
          · exact k2 p hm
          · exact j2 p hm

/-- With the cursor below 13 the scan returns within 13 iterations. -/
theorem scanLoop_total (s : State) (hf : s.first_reported < 13) :
    ∃ t, scanLoop NUM_OF_CHANS (scanEntry s) = some t := by
  obtain ⟨s1, out, h, _⟩ := schedule_total s NUM_OF_CHANS hf (le_refl _)
  unfold schedule at h
  cases hs : scanLoop NUM_OF_CHANS (scanEntry s) with
  | none => simp [hs] at h
  | some t => exact ⟨t, rfl⟩

/-- C18: the cursor is below 13 in the initial state and every pass of the
main loop keeps it there; with the cursor below 13 the scan returns, every
subscript it uses on `new_hit`, `note_on`, `hit` and `midi_code` is below 13,
every position of `midiMsg` it writes is at most 7, and the buffer it leaves
has at most 8 bytes. -/
theorem index_safety :
    init.first_reported < 13 ∧
    (∀ (s : State) (samples : Nat → Int) (ready : Bool), s.first_reported < 13 →
      ∃ s1 out, mainLoop NUM_OF_CHANS s samples ready = some (s1, out) ∧
        s1.first_reported < 13) ∧
    (∀ s : State, s.first_reported < 13 →
      ∃ r, scanLoopLog NUM_OF_CHANS (scanEntry s) = some r ∧
        scanLoop NUM_OF_CHANS (scanEntry s) = some r.1 ∧
        (∀ i ∈ r.2.1, i < 13) ∧ (∀ p ∈ r.2.2, p ≤ 7) ∧
        r.1.iii ≤ 8 ∧ (buffer r.1).length ≤ 8) := by
  refine ⟨by decide, ?_, ?_⟩
  · intro s samples ready hf
    obtain ⟨s1, out, h1, h2, _⟩ := mainLoop_total s samples ready hf
    exact ⟨s1, out, h1, h2⟩
  · intro s hf
    obtain ⟨t, ht⟩ := scanLoop_total s hf
    have hfst := scanLoopLog_fst NUM_OF_CHANS (scanEntry s)
    rw [ht] at hfst
    cases hr : scanLoopLog NUM_OF_CHANS (scanEntry s) with
    | none => simp [hr] at hfst
    | some r =>
      simp only [hr, Option.map_some', Option.some.injEq] at hfst
      obtain ⟨j1, j2, j3, _⟩ := scanLoopLog_safe NUM_OF_CHANS (scanEntry s) r hf rfl hr
      exact ⟨r, rfl, by rw [ht, hfst], j1, j2, j3, by simp [buffer]; exact j3⟩

set_option maxRecDepth 100000 in
/-- Witness for C18: the scan that services channel 2 while its note is
sounding writes positions 0..7. -/
theorem index_safety_witness :
    afterNoteOn2.first_reported < 13 ∧
    (scanLoopLog NUM_OF_CHANS
        (scanEntry (detectAll (detectAll (detectAll (detectAll afterNoteOn2 silence)
          (strike 2 5)) (strike 2 100)) silence))).map (fun r => r.2.2)
      = some [0, 1, 2, 3, 4, 5, 6, 7] ∧
    ∃ s1 out, mainLoop NUM_OF_CHANS afterNoteOn2 silence true = some (s1, out) ∧
      s1.first_reported < 13 :=
  ⟨by decide, by decide, index_safety.2.1 afterNoteOn2 silence true (by decide)⟩

/-! ### Re-entry into SEARCHING -/

/-- Two states that agree on stage, peak and pending hit of channel `chn`
still agree on them after a detector step, and a hit raised by the step gets
the same velocity in both. -/
theorem detect_synced (a b : State) (chn : Nat) (v : Int)
    (h1 : a.stage chn = b.stage chn) (h2 : a.new_hit chn = b.new_hit chn)
    (h3 : a.vmax chn = b.vmax chn) :
    (detect a chn v).stage chn = (detect b chn v).stage chn ∧
    (detect a chn v).new_hit chn = (detect b chn v).new_hit chn ∧
    (detect a chn v).vmax chn = (detect b chn v).vmax chn ∧
    (a.new_hit chn = 0 → (detect a chn v).new_hit chn ≠ 0 →
      (detect a chn v).hit chn = (detect b chn v).hit chn) := by
  unfold detect
  simp only [h1, h2, h3]
  repeat' split
  all_goals simp_all [upd]

/-- From states that agree on stage, peak and pending hit of the channel the
two traces agree sample by sample. -/
theorem detectTrace_synced (chn : Nat) (l : List (Int × Bool)) (a b : State)
    (h1 : a.stage chn = b.stage chn) (h2 : a.new_hit chn = b.new_hit chn)
    (h3 : a.vmax chn = b.vmax chn) :
    List.Forall₂
      (fun x y => x.stage = y.stage ∧ x.raised = y.raised ∧
        (x.raised = true → x.velocity = y.velocity) ∧ x.peak = y.peak)
      (detectTrace chn a l) (detectTrace chn b l) := by
  induction l generalizing a b with
  | nil => exact List.Forall₂.nil
  | cons q rest ih =>
    have hc : (if q.2 then { a with new_hit := upd a.new_hit chn 0 } else a).stage chn
          = (if q.2 then { b with new_hit := upd b.new_hit chn 0 } else b).stage chn ∧
        (if q.2 then { a with new_hit := upd a.new_hit chn 0 } else a).new_hit chn
          = (if q.2 then { b with new_hit := upd b.new_hit chn 0 } else b).new_hit chn ∧
        (if q.2 then { a with new_hit := upd a.new_hit chn 0 } else a).vmax chn
          = (if q.2 then { b with new_hit := upd b.new_hit chn 0 } else b).vmax chn := by
      cases q.2 <;> simp [upd, h1, h2, h3]
    obtain ⟨c1, c2, c3⟩ := hc
    obtain ⟨d1, d2, d3, d4⟩ := detect_synced _ _ chn q.1 c1 c2 c3
    simp only [detectTrace]
    refine List.Forall₂.cons ⟨d1, ?_, ?_, d3⟩ (ih _ _ d1 d2 d3)
    · simp only [c2, d2]
    · intro hr
      simp only [decide_eq_true_eq] at hr
      exact d4 hr.1 hr.2

/-- Before the first sample at or above the floor `m`, both detectors stay
SEARCHING without a hit; the traces agree in stage, hits and velocities
throughout, and in the peak from the first sample at or above `m` on. -/
theorem detectTrace_presync (chn : Nat) (m : Int) (hm : m < 10) (l : List (Int × Bool))
    (a b : State)
    (ha1 : a.stage chn = 0) (hb1 : b.stage chn = 0)
    (ha2 : a.new_hit chn = 0) (hb2 : b.new_hit chn = 0)
    (ha3 : a.vmax chn = m) (hb3 : b.vmax chn ≤ max m 0)
    (hl : ∀ p ∈ l, 0 ≤ p.1 ∧ p.1 ≤ 1023) :
    List.Forall₂
      (fun x y => x.stage = y.stage ∧ x.raised = y.raised ∧
        (x.raised = true → x.velocity = y.velocity))
      (detectTrace chn a l) (detectTrace chn b l) ∧
    ∀ l1 p l2, l = l1 ++ p :: l2 → m ≤ p.1 →
      List.Forall₂ (fun x y => x.peak = y.peak)
        ((detectTrace chn a l).drop l1.length) ((detectTrace chn b l).drop l1.length) := by
  induction l generalizing a b with
  | nil =>
    refine ⟨List.Forall₂.nil, ?_⟩
    intro l1 p l2 h
    cases l1 <;> simp at h
  | cons q rest ih =>
    have hca : (if q.2 then { a with new_hit := upd a.new_hit chn 0 } else a).stage chn = 0 ∧
        (if q.2 then { a with new_hit := upd a.new_hit chn 0 } else a).new_hit chn = 0 ∧
        (if q.2 then { a with new_hit := upd a.new_hit chn 0 } else a).vmax chn = m := by
      cases q.2 <;> simp [upd, ha1, ha2, ha3]
    have hcb : (if q.2 then { b with new_hit := upd b.new_hit chn 0 } else b).stage chn = 0 ∧
        (if q.2 then { b with new_hit := upd b.new_hit chn 0 } else b).new_hit chn = 0 ∧
        (if q.2 then { b with new_hit := upd b.new_hit chn 0 } else b).vmax chn = b.vmax chn := by
      cases q.2 <;> simp [upd, hb1, hb2]
    obtain ⟨a1, a2, a3⟩ := hca
    obtain ⟨b1, b2, b3⟩ := hcb
    have hq := hl q (by simp)
    have hmax : max m 0 ≤ 10 := by
      rcases le_total m 0 with h | h
      · rw [max_eq_right h]; decide
      · rw [max_eq_left h]; omega
    obtain ⟨ra1, ra2, ra3⟩ := detect_rise_step _ chn q.1 a1 a2 (Or.inl (by rw [a3]; omega))
    obtain ⟨rb1, rb2, rb3⟩ := detect_rise_step _ chn q.1 b1 b2 (Or.inl (by rw [b3]; omega))
    rw [a3] at ra3
    rw [b3] at rb3
    by_cases hge : m ≤ q.1
    · have hpeak : (detect (if q.2 then { a with new_hit := upd a.new_hit chn 0 } else a)
            chn q.1).vmax chn
          = (detect (if q.2 then { b with new_hit := upd b.new_hit chn 0 } else b)
            chn q.1).vmax chn := by
        rw [ra3, rb3, max_eq_right hge, max_eq_right (le_trans hb3 (max_le hge hq.1))]
      have hrest := detectTrace_synced chn rest _ _ (ra1.trans rb1.symm) (ra2.trans rb2.symm)
        hpeak
      have hfull : List.Forall₂
          (fun x y => x.stage = y.stage ∧ x.raised = y.raised ∧
            (x.raised = true → x.velocity = y.velocity) ∧ x.peak = y.peak)
          (detectTrace chn a (q :: rest)) (detectTrace chn b (q :: rest)) := by
        simp only [detectTrace]
        refine List.Forall₂.cons ⟨ra1.trans rb1.symm, ?_, ?_, hpeak⟩ hrest
        · simp only [a2, b2, ra2, rb2]
        · intro hr
          simp [ra2] at hr
      refine ⟨hfull.imp (fun x y hxy => ⟨hxy.1, hxy.2.1, hxy.2.2.1⟩), ?_⟩
      intro l1 p l2 _ _
      exact (List.forall₂_drop l1.length hfull).imp (fun x y hxy => hxy.2.2.2)
    · have hlt : q.1 < m := not_le.mp hge
      have hm0 : 0 < m := by omega
      have hrec := ih _ _ ra1 rb1 ra2 rb2 (by rw [ra3]; exact max_eq_left hlt.le)
        (by
          rw [rb3]
          exact max_le hb3 (le_trans hlt.le (le_max_left m 0)))
        (fun p hp => hl p (List.mem_cons_of_mem _ hp))
      constructor
      · simp only [detectTrace]
        refine List.Forall₂.cons ⟨ra1.trans rb1.symm, ?_, ?_⟩ hrec.1
        · simp only [a2, b2, ra2, rb2]
        · intro hr
          simp [ra2] at hr
      · intro l1 p l2 hsplit hp
        cases l1 with
        | nil =>
          simp only [List.nil_append, List.cons.injEq] at hsplit
          rw [← hsplit.1] at hp
          omega
        | cons x l1 =>
          simp only [List.cons_append, List.cons.injEq] at hsplit
          simp only [detectTrace, List.length_cons, List.drop_succ_cons]
          exact hrec.2 l1 p l2 hsplit.2 hp

/-- C12: let the detector of a channel run from SEARCHING with no pending hit,
once with a decayed floor `m < 10` as its peak and once fresh with peak 0, on
the same samples (values 0..1023), the pending hit being consumed before the
same samples in both runs.  Then after every sample both runs are in the same
stage, a hit is raised in one exactly when it is raised in the other, with the
same velocity, and from the first sample at or above `m` on the two peaks are
equal. -/
theorem reentry_like_fresh (a b : State) (chn : Nat) (m : Int) (l : List (Int × Bool))
    (hm : m < 10)
    (ha1 : a.stage chn = 0) (ha2 : a.new_hit chn = 0) (ha3 : a.vmax chn = m)
    (hb1 : b.stage chn = 0) (hb2 : b.new_hit chn = 0) (hb3 : b.vmax chn = 0)
    (hl : ∀ p ∈ l, 0 ≤ p.1 ∧ p.1 ≤ 1023) :
    List.Forall₂
      (fun x y => x.stage = y.stage ∧ x.raised = y.raised ∧
        (x.raised = true → x.velocity = y.velocity))
      (detectTrace chn a l) (detectTrace chn b l) ∧
    ∀ l1 p l2, l = l1 ++ p :: l2 → m ≤ p.1 →
      List.Forall₂ (fun x y => x.peak = y.peak)
        ((detectTrace chn a l).drop l1.length) ((detectTrace chn b l).drop l1.length) :=
  detectTrace_presync chn m hm l a b ha1 hb1 ha2 hb2 ha3
    (by rw [hb3]; exact le_max_right m 0) hl

/-- Witness for C12: channel 0 has decayed to the floor 3 after a pulse and
re-entered SEARCHING; it then reads 2, 50, 0 and 0 like the fresh channel. -/
theorem reentry_like_fresh_witness :
    ({ detect (detect (detect (detect init 0 100) 0 0) 0 3) 0 5 with
        new_hit := fun _ => 0 } : State).vmax 0 = 3 ∧
    ∀ l1 p l2, [((2 : Int), false), (50, false), (0, false), (0, true)] = l1 ++ p :: l2 →
      (3 : Int) ≤ p.1 →
      List.Forall₂ (fun x y => x.peak = y.peak)
        ((detectTrace 0
          { detect (detect (detect (detect init 0 100) 0 0) 0 3) 0 5 with
            new_hit := fun _ => 0 }
          [(2, false), (50, false), (0, false), (0, true)]).drop l1.length)
        ((detectTrace 0 init [(2, false), (50, false), (0, false), (0, true)]).drop
          l1.length) :=
  ⟨by decide,
    (reentry_like_fresh
      { detect (detect (detect (detect init 0 100) 0 0) 0 3) 0 5 with new_hit := fun _ => 0 }
      init 0 3 [(2, false), (50, false), (0, false), (0, true)]
      (by decide) (by decide) (by decide) (by decide) (by decide) (by decide) (by decide)
      (by decide)).2⟩

/-! ### Pairing of note-on and note-off -/

theorem history_cons (note : Nat) (out : Option (List Nat)) (outs : List (Option (List Nat))) :
    history note (out :: outs) = history note [out] ++ history note outs := by
  simp [history]

theorem lastOn_append (before : Bool) (h1 h2 : List Bool) :
    lastOn before (h1 ++ h2) = lastOn (lastOn before h1) h2 := by
  induction h1 generalizing before with
  | nil => rfl
  | cons x xs ih => simp [lastOn, ih]

theorem lastOn_getLast (h : List Bool) :
    lastOn false h = true ↔ h.getLast? = some true := by
  have key : ∀ (l : List Bool) (d : Bool), lastOn d l = (l.getLast?).getD d := by
    intro l
    induction l with
    | nil => intro d; rfl
    | cons x xs ih =>
      intro d
      rw [lastOn, ih x]
      cases xs with
      | nil => rfl
      | cons y ys =>
        rw [List.getLast?_cons_cons]
        cases hz : (y :: ys).getLast? with
        | none => simp at hz
        | some z => rfl
  rw [key]
  cases h.getLast? with
  | none => simp
  | some b => simp

/-- What a ready pass means for the messages and the timer of channel `c`:
no message for `c` and its note keeps sounding or keeps being off; or its
note-off, when it was sounding; or its note-on, when it was off; or its
note-off followed by its note-on, when it was sounding. -/
theorem schedule_pairing (s : State) (c fuel : Nat) (hf : s.first_reported < 13)
    (hc : c < 13) (hinj : ∀ x < 13, s.midi_code x = s.midi_code c → x = c)
    (h30 : s.note_on c ≤ 30) (hfuel : 13 ≤ fuel) :
    ∃ s1 out, schedule fuel s = some (s1, out) ∧ s1.first_reported < 13 ∧
      s1.midi_code = s.midi_code ∧ s1.note_on c ≤ 30 ∧
      ((history (s.midi_code c) [out] = [] ∧ (0 < s1.note_on c ↔ 0 < s.note_on c)) ∨
       (history (s.midi_code c) [out] = [false] ∧ 0 < s.note_on c ∧ s1.note_on c = 0) ∨
       (history (s.midi_code c) [out] = [true] ∧ s.note_on c = 0 ∧ s1.note_on c = 30) ∨
       (history (s.midi_code c) [out] = [false, true] ∧ 0 < s.note_on c ∧
          s1.note_on c = 30)) := by
  have hcd := cyc_dist s.first_reported c hf hc
  have hD := dist_lt s.first_reported c
  rcases first_stop s 13 with hall | ⟨d, hd, hp, hstop⟩
  · obtain ⟨s1, h1, h2, _, h4, _, h6, _⟩ := schedule_idle s hf hall fuel hfuel
    have hpc : passes s c := hcd ▸ hall _ hD
    have hv : s1.note_on c = s.note_on c - 1 := by
      have h := skipped_note_on_cyc s hf 13 _ hD
      rw [hcd, if_pos hD] at h
      rw [h4, h]
    have hne := hpc.2
    refine ⟨s1, none, h1, by rw [h2]; exact hf, h6, by omega, Or.inl ⟨by simp [history], ?_⟩⟩
    omega
  · have hother : dist s.first_reported c ≠ d → ∀ v,
        s.midi_code (cyc s.first_reported d) ≠ s.midi_code c ∧
        (upd (skipped s d).note_on (cyc s.first_reported d) v c ≤ 30 ∧
          (0 < upd (skipped s d).note_on (cyc s.first_reported d) v c ↔ 0 < s.note_on c)) := by
      intro hne v
      have hcj : c ≠ cyc s.first_reported d := by
        intro h
        rw [← hcd] at h
        exact hne (cyc_inj _ _ _ hD hd h)
      have hcode : s.midi_code (cyc s.first_reported d) ≠ s.midi_code c :=
        fun h => hcj (hinj _ (cyc_lt _ _) h).symm
      have h := skipped_note_on_cyc s hf d _ hD
      rw [hcd] at h
      refine ⟨hcode, ?_⟩
      simp only [upd, hcj, if_false]
      rw [h]
      by_cases hlt : dist s.first_reported c < d
      · have hpc : passes s c := hcd ▸ hp _ hlt
        have := hpc.2
        rw [if_pos hlt]
        omega
      · rw [if_neg hlt]
        omega
    rcases not_passes _ _ hstop with hh | ⟨hh, hone⟩
    · obtain ⟨s1, h1, h2, _, h4, _, h6, _⟩ := schedule_hit s hf d hd hp hh fuel hfuel
      refine ⟨s1, _, h1, by rw [h2]; exact Nat.mod_lt _ (by decide), h6, ?_⟩
      by_cases hDd : dist s.first_reported c = d
      · rw [← hDd, hcd] at h4 ⊢
        have hv : s1.note_on c = 30 := by rw [h4]; simp [upd]
        refine ⟨by omega, ?_⟩
        by_cases h0 : s.note_on c = 0
        · exact Or.inr (Or.inr (Or.inl ⟨by simp [history, messages, h0], h0, hv⟩))
        · exact Or.inr (Or.inr (Or.inr ⟨by simp [history, messages, h0], by omega, hv⟩))
      · obtain ⟨k1, k2, k3⟩ := hother hDd 30
        rw [← h4] at k2 k3
        refine ⟨k2, Or.inl ⟨?_, k3⟩⟩
        by_cases h0 : s.note_on (cyc s.first_reported d) = 0
        · simp [history, messages, h0, k1]
        · simp [history, messages, h0, k1]
    · obtain ⟨s1, h1, h2, _, h4, _, h6, _⟩ := schedule_off s hf d hd hp hh hone fuel hfuel
      refine ⟨s1, _, h1, by rw [h2]; exact Nat.mod_lt _ (by decide), h6, ?_⟩
      by_cases hDd : dist s.first_reported c = d
      · rw [← hDd, hcd] at h4 hone ⊢
        have hv : s1.note_on c = 0 := by rw [h4]; simp [upd]
        exact ⟨by omega, Or.inr (Or.inl ⟨by simp [history, messages], by omega, hv⟩)⟩
      · obtain ⟨k1, k2, k3⟩ := hother hDd 0
        rw [← h4] at k2 k3
        exact ⟨k2, Or.inl ⟨by simp [history, messages, k1], k3⟩⟩

/-- In a run from a state in which the timer of `c` is at most 30, the
messages for `c` alternate, starting with a note-on exactly when the note of
`c` is not sounding at the start, and at the end the note of `c` is sounding
exactly when the last message for `c` (or, without any, the start) says so. -/
theorem runLoop_pairing (c : Nat) (hc : c < 13) (inputs : List ((Nat → Int) × Bool))
    (s : State) (hf : s.first_reported < 13)
    (hinj : ∀ x < 13, s.midi_code x = s.midi_code c → x = c) (h30 : s.note_on c ≤ 30) :
    ∃ s1 outs, runLoop s inputs = some (s1, outs) ∧ s1.note_on c ≤ 30 ∧
      alternates (decide (s.note_on c = 0)) (history (s.midi_code c) outs) ∧
      (0 < s1.note_on c ↔
        lastOn (decide (0 < s.note_on c)) (history (s.midi_code c) outs) = true) := by
  induction inputs generalizing s with
  | nil => exact ⟨s, [], rfl, h30, trivial, by simp [history, lastOn]⟩
  | cons p ps ih =>
    obtain ⟨e1, e2, e3⟩ := detectAll_frame s p.1
    have hstep : ∃ s2 out, mainLoop NUM_OF_CHANS s p.1 p.2 = some (s2, out) ∧
        s2.first_reported < 13 ∧ s2.midi_code = s.midi_code ∧ s2.note_on c ≤ 30 ∧
        ((history (s.midi_code c) [out] = [] ∧ (0 < s2.note_on c ↔ 0 < s.note_on c)) ∨
         (history (s.midi_code c) [out] = [false] ∧ 0 < s.note_on c ∧ s2.note_on c = 0) ∨
         (history (s.midi_code c) [out] = [true] ∧ s.note_on c = 0 ∧ s2.note_on c = 30) ∨
         (history (s.midi_code c) [out] = [false, true] ∧ 0 < s.note_on c ∧
            s2.note_on c = 30)) := by
      cases hready : p.2 with
      | false =>
        exact ⟨detectAll s p.1, none, by simp [mainLoop], by rw [e2]; exact hf, e3,
          by rw [e1]; exact h30, Or.inl ⟨by simp [history], by rw [e1]⟩⟩
      | true =>
        obtain ⟨s2, out, k1, k2, k3, k4, k5⟩ :=
          schedule_pairing (detectAll s p.1) c NUM_OF_CHANS (by rw [e2]; exact hf) hc
            (by rw [e3]; exact hinj) (by rw [e1]; exact h30) (le_refl _)
        rw [e1, e3] at k5
        exact ⟨s2, out, by rw [mainLoop_ready]; exact k1, k2, k3.trans e3, k4, k5⟩
    obtain ⟨s2, out, m1, m2, m3, m4, m5⟩ := hstep
    obtain ⟨s3, outs, r1, r2, r3, r4⟩ := ih s2 m2 (by rw [m3]; exact hinj) m4
    rw [m3] at r3 r4
    refine ⟨s3, out :: outs, by simp [runLoop, m1, r1], r2, ?_, ?_⟩
    · rw [history_cons]
      rcases m5 with ⟨g1, g2⟩ | ⟨g1, g2, g3⟩ | ⟨g1, g2, g3⟩ | ⟨g1, g2, g3⟩
      · rw [g1, List.nil_append]
        have : decide (s.note_on c = 0) = decide (s2.note_on c = 0) := by
          rw [decide_eq_decide]; omega
        rw [this]; exact r3
      · rw [g1]
        have e : decide (s.note_on c = 0) = false := by simp; omega
        simp only [g3, decide_True] at r3
        simp only [e, List.singleton_append, alternates, Bool.not_false, true_and]
        exact r3
      · rw [g1]
        have e : decide (s2.note_on c = 0) = false := by simp [g3]
        rw [e] at r3
        simp only [g2, decide_True, List.singleton_append, alternates, Bool.not_true, true_and]
        exact r3
      · rw [g1]
        have e : decide (s.note_on c = 0) = false := by simp; omega
        have e2 : decide (s2.note_on c = 0) = false := by simp [g3]
        rw [e2] at r3
        simp only [e, List.cons_append, List.nil_append, alternates, Bool.not_false,
          Bool.not_true, true_and]
        exact r3
    · rw [history_cons, lastOn_append, r4]
      rcases m5 with ⟨g1, g2⟩ | ⟨g1, g2, g3⟩ | ⟨g1, g2, g3⟩ | ⟨g1, g2, g3⟩
      · rw [g1]
        have : decide (0 < s2.note_on c) = decide (0 < s.note_on c) := by
          rw [decide_eq_decide]; exact g2
        simp only [lastOn, this]
      · rw [g1]
        simp [lastOn, g3]
      · rw [g1]
        simp [lastOn, g3]
      · rw [g1]
        simp [lastOn, g3]

/-- C16: in every run from the initial state and for every channel `c`, the
timer of `c` is at most 30, it is running exactly when the last message sent
for `c` is a note-on, and the messages sent for `c` alternate between note-on
and note-off, starting with a note-on. -/
theorem note_pairing (inputs : List ((Nat → Int) × Bool)) (c : Nat) (hc : c < 13) :
    ∃ s outs, runLoop init inputs = some (s, outs) ∧
      s.note_on c ≤ 30 ∧
      (0 < s.note_on c ↔ (history (init.midi_code c) outs).getLast? = some true) ∧
      alternates true (history (init.midi_code c) outs) := by
  obtain ⟨s, outs, h1, h2, h3, h4⟩ := runLoop_pairing c hc inputs init (by decide)
    (fun x hx h => midi_code_injective x c hx hc h) (Nat.zero_le 30)
  refine ⟨s, outs, h1, h2, ?_, h3⟩
  rw [h4]
  exact lastOn_getLast _

set_option maxRecDepth 100000 in
/-- Witness for C16: channel 2 is struck, struck again while its note sounds,
and left to time out. -/
theorem note_pairing_witness :
    (history (init.midi_code 2)
      ((runLoop init ([(strike 2 100, true), (silence, true), (silence, true),
          (strike 2 5, true), (strike 2 100, true), (silence, true)]
          ++ List.replicate 30 (silence, true))).getD (init, [])).2)
      = [true, false, true, false] ∧
    ∃ s outs,
      runLoop init ([(strike 2 100, true), (silence, true), (silence, true),
          (strike 2 5, true), (strike 2 100, true), (silence, true)]
          ++ List.replicate 30 (silence, true)) = some (s, outs) ∧
      s.note_on 2 ≤ 30 ∧
      (0 < s.note_on 2 ↔ (history (init.midi_code 2) outs).getLast? = some true) ∧
      alternates true (history (init.midi_code 2) outs) :=
  ⟨by decide,
    note_pairing ([(strike 2 100, true), (silence, true), (silence, true),
      (strike 2 5, true), (strike 2 100, true), (silence, true)] ++ List.replicate 30 (silence, true)) 2
      (by decide)⟩

end MidiDrum
